import Mathlib

/-!
Verification of the digitalhub-cli-sdk artifact-transfer subsystem.

This file gives a shallow embedding, in Lean, of the Go source of the
repository: the deep-merge utility (utils/merge, `MergeMaps` and
`mergeArrayOfMapsByKey`), the progress aggregator (`globalProgress`), the
object-store adapter (`ListFilesPaged`, `WalkPrefix`, `progressWriter`),
the upload orchestrator (`TransferService.Upload` with its helpers
`UploadS3File` and `UploadS3Dir`) and the download orchestrator
(`TransferService.Download`).

Modelling conventions, used throughout:
- Go's `map[string]interface{}` values (JSON documents decoded by
  `json.Unmarshal`) are modelled by `JValue`/`JObj`; a map is an
  insertion-ordered association list.  Go map iteration order is
  unspecified; the embedding fixes it to insertion order, and every
  theorem about a map-iteration result is order-insensitive in the sense
  the spec asks for.
- Side effects (HTTP calls, S3 calls, the local file system, the clock)
  are injected: each embedded operation takes an environment of
  collaborator behaviours and returns, besides its Go results, the trace
  of externally visible calls it made.
- Machine integers (`int64` byte counts) are modelled as `Int`; the Go
  code performs no overflowing arithmetic on them.
- Fallible Go code returning `(T, error)` is modelled with `Except` (or
  with an explicit pair when the source returns both a value and an
  error).
-/

namespace DhCli

/-! ## JSON documents (`map[string]interface{}` after `json.Unmarshal`) -/

inductive JValue where
  | jnull
  | jbool (b : Bool)
  | jnum (n : Int)
  | jstr (s : String)
  | jarr (items : List JValue)
  | jobj (fields : List (String × JValue))
deriving Repr

abbrev JObj := List (String × JValue)

mutual

def jsize : JValue → Nat
  | .jnull => 1
  | .jbool _ => 1
  | .jnum _ => 1
  | .jstr _ => 1
  | .jarr l => lsize l + 1
  | .jobj o => osize o + 1

def lsize : List JValue → Nat
  | [] => 0
  | v :: rest => jsize v + lsize rest + 1

def osize : List (String × JValue) → Nat
  | [] => 0
  | (_, v) :: rest => jsize v + osize rest + 1

end

mutual

def jeq : JValue → JValue → Bool
  | .jnull, .jnull => true
  | .jbool a, .jbool b => a == b
  | .jnum a, .jnum b => a == b
  | .jstr a, .jstr b => a == b
  | .jarr a, .jarr b => leq a b
  | .jobj a, .jobj b => oeq a b
  | _, _ => false

def leq : List JValue → List JValue → Bool
  | [], [] => true
  | a :: as2, b :: bs => jeq a b && leq as2 bs
  | _, _ => false

def oeq : List (String × JValue) → List (String × JValue) → Bool
  | [], [] => true
  | (k1, v1) :: as2, (k2, v2) :: bs => k1 == k2 && jeq v1 v2 && oeq as2 bs
  | _, _ => false

end

mutual

theorem jeq_iff : ∀ a b : JValue, jeq a b = true ↔ a = b
  | .jnull, .jnull => by simp [jeq]
  | .jnull, .jbool _ => by simp [jeq]
  | .jnull, .jnum _ => by simp [jeq]
  | .jnull, .jstr _ => by simp [jeq]
  | .jnull, .jarr _ => by simp [jeq]
  | .jnull, .jobj _ => by simp [jeq]
  | .jbool _, .jnull => by simp [jeq]
  | .jbool a, .jbool b => by simp [jeq]
  | .jbool _, .jnum _ => by simp [jeq]
  | .jbool _, .jstr _ => by simp [jeq]
  | .jbool _, .jarr _ => by simp [jeq]
  | .jbool _, .jobj _ => by simp [jeq]
  | .jnum _, .jnull => by simp [jeq]
  | .jnum _, .jbool _ => by simp [jeq]
  | .jnum a, .jnum b => by simp [jeq]
  | .jnum _, .jstr _ => by simp [jeq]
  | .jnum _, .jarr _ => by simp [jeq]
  | .jnum _, .jobj _ => by simp [jeq]
  | .jstr _, .jnull => by simp [jeq]
  | .jstr _, .jbool _ => by simp [jeq]
  | .jstr _, .jnum _ => by simp [jeq]
  | .jstr a, .jstr b => by simp [jeq]
  | .jstr _, .jarr _ => by simp [jeq]
  | .jstr _, .jobj _ => by simp [jeq]
  | .jarr _, .jnull => by simp [jeq]
  | .jarr _, .jbool _ => by simp [jeq]
  | .jarr _, .jnum _ => by simp [jeq]
  | .jarr _, .jstr _ => by simp [jeq]
  | .jarr a, .jarr b => by
      simp only [jeq]
      rw [leq_iff]
      simp
  | .jarr _, .jobj _ => by simp [jeq]
  | .jobj _, .jnull => by simp [jeq]
  | .jobj _, .jbool _ => by simp [jeq]
  | .jobj _, .jnum _ => by simp [jeq]
  | .jobj _, .jstr _ => by simp [jeq]
  | .jobj _, .jarr _ => by simp [jeq]
  | .jobj a, .jobj b => by
      simp only [jeq]
      rw [oeq_iff]
      simp

theorem leq_iff : ∀ a b : List JValue, leq a b = true ↔ a = b
  | [], [] => by simp [leq]
  | [], _ :: _ => by simp [leq]
  | _ :: _, [] => by simp [leq]
  | a :: as2, b :: bs => by
      simp only [leq, Bool.and_eq_true]
      rw [jeq_iff, leq_iff]
      simp

theorem oeq_iff : ∀ a b : List (String × JValue), oeq a b = true ↔ a = b
  | [], [] => by simp [oeq]
  | [], _ :: _ => by simp [oeq]
  | _ :: _, [] => by simp [oeq]
  | (k1, v1) :: as2, (k2, v2) :: bs => by
      simp only [oeq, Bool.and_eq_true]
      rw [jeq_iff, oeq_iff]
      simp [beq_iff_eq, Prod.ext_iff]

end

instance : DecidableEq JValue := fun a b => decidable_of_iff _ (jeq_iff a b)

instance {E A : Type} [DecidableEq E] [DecidableEq A] : DecidableEq (Except E A) := fun a b =>
  match a, b with
  | Except.ok x, Except.ok y =>
    if h : x = y then Decidable.isTrue (by rw [h])
    else Decidable.isFalse (by intro hh; cases hh; exact h rfl)
  | Except.error x, Except.error y =>
    if h : x = y then Decidable.isTrue (by rw [h])
    else Decidable.isFalse (by intro hh; cases hh; exact h rfl)
  | Except.ok _, Except.error _ => Decidable.isFalse (by intro hh; cases hh)
  | Except.error _, Except.ok _ => Decidable.isFalse (by intro hh; cases hh)

theorem jeq_refl (a : JValue) : jeq a a = true := (jeq_iff a a).mpr rfl

theorem jsize_pos (v : JValue) : 1 ≤ jsize v := by
  cases v <;> simp [jsize]

/-- Go `m[k]` on a decoded JSON document. -/
def jlookup : JObj → String → Option JValue
  | [], _ => none
  | (k, v) :: rest, key => if k = key then some v else jlookup rest key

/-- Go `m[k] = v`: replace in place when the key is present, append otherwise
(insertion-ordered model of an unordered Go map). -/
def jinsert : JObj → String → JValue → JObj
  | [], key, v => [(key, v)]
  | (k, w) :: rest, key, v =>
    if k = key then (k, v) :: rest else (k, w) :: jinsert rest key v

theorem jlookup_jinsert_self (o : JObj) (k : String) (v : JValue) :
    jlookup (jinsert o k v) k = some v := by
  induction o with
  | nil => simp [jinsert, jlookup]
  | cons p rest ih =>
    obtain ⟨k1, w⟩ := p
    by_cases h : k1 = k <;> simp [jinsert, jlookup, h, ih]

theorem jinsert_lookup_eq (o : JObj) (k : String) (v : JValue)
    (h : jlookup o k = some v) : jinsert o k v = o := by
  induction o with
  | nil => simp [jlookup] at h
  | cons p rest ih =>
    obtain ⟨k1, w⟩ := p
    by_cases hk : k1 = k
    · subst hk
      simp [jlookup] at h
      simp [jinsert, h]
    · simp [jlookup, hk] at h
      simp [jinsert, hk, ih h]

/-! ## Merge utility (`utils`, `MergeMaps` / `mergeArrayOfMapsByKey`)

The Go functions recurse into the overlay's values while folding over the
overlay map; the embedding runs the same algorithm on explicit fuel (the
Go recursion is structural on the overlay, so fuel `osize`/`lsize` of the
overlay argument is exactly enough, which `mergeFuel_stable` below makes
precise).  All wrappers therefore compute by `rfl` on concrete input. -/

/-- Go `MergeConfig`, a possibly-nil `map[string]string` (field name ↦ the
key to match inside each element of an array of maps). -/
abbrev MergeCfg := Option (List (String × String))

/-- Go `isMap`: is the value a `map[string]interface{}`. -/
def isMap : JValue → Bool
  | .jobj _ => true
  | _ => false

/-- Go `isSlice`: is the value a `[]interface{}`. -/
def isSlice : JValue → Bool
  | .jarr _ => true
  | _ => false

/-- Go `looksLikeArrayOfMaps`: all elements are maps. -/
def looksLikeArrayOfMaps : List JValue → Bool
  | [] => true
  | JValue.jobj _ :: rest => looksLikeArrayOfMaps rest
  | _ => false

def lookupRule : List (String × String) → String → Option String
  | [], _ => none
  | (k, v) :: rest, key => if k = key then some v else lookupRule rest key

/-- `cfg[k]` on a possibly-nil merge configuration. -/
def cfgRule : MergeCfg → String → Option String
  | none, _ => none
  | some rules, key => lookupRule rules key

/-- Lookup in the `map[interface{}]map[string]interface{}` index built by
`mergeArrayOfMapsByKey` (insertion-ordered model). -/
def idxLookup : List (JValue × JObj) → JValue → Option JObj
  | [], _ => none
  | (id, m) :: rest, key => if jeq id key then some m else idxLookup rest key

def idxUpdate : List (JValue × JObj) → JValue → JObj → List (JValue × JObj)
  | [], _, _ => []
  | (id, m) :: rest, key, v =>
    if jeq id key then (id, v) :: rest else (id, m) :: idxUpdate rest key v

/-- Go `index[id] = m`: replace in place or append. -/
def idxSet (idx : List (JValue × JObj)) (id : JValue) (m : JObj) : List (JValue × JObj) :=
  match idxLookup idx id with
  | some _ => idxUpdate idx id m
  | none => idx ++ [(id, m)]

/-- First loop of `mergeArrayOfMapsByKey`: index the elements of `arr1` by
the value at `key` (elements that are not maps, or lack the key, are not
indexed). -/
def indexArr1 : List (JValue × JObj) → List JValue → String → List (JValue × JObj)
  | idx, [], _ => idx
  | idx, JValue.jobj m :: rest, key =>
    (match jlookup m key with
     | some id => indexArr1 (idxSet idx id m) rest key
     | none => indexArr1 idx rest key)
  | idx, _ :: rest, key => indexArr1 idx rest key

/-- The value the Go `switch` stores when the overlay value is a map
`o2`: recurse when the current value `v1` is also a map, else overwrite.
`mergeRec` is the recursive merge call (a parameter, so that this helper
stays outside the recursion and keeps plain equation lemmas). -/
def objNewVal (mergeRec : JObj → JObj) (o2 : JObj) (v1 : Option JValue) : JValue :=
  match v1 with
  | some (JValue.jobj o1) => JValue.jobj (mergeRec o1)
  | _ => JValue.jobj o2

/-- The value the Go `switch` stores when the overlay value is an array
`a2`: keyed merge when the current value is also an array, a non-nil
configuration names a merge key for this field and both arrays hold only
maps; else overwrite with `a2`.  `walkIdx a1 mergeKey` is the recursive
index-building call. -/
def arrNewVal (walkIdx : List JValue → String → List (JValue × JObj)) (k : String)
    (a2 : List JValue) (v1 : Option JValue) (cfg : MergeCfg) : JValue :=
  match v1, cfg with
  | some (JValue.jarr a1), some rules =>
    (match lookupRule rules k with
     | some mergeKey =>
       if looksLikeArrayOfMaps a1 && looksLikeArrayOfMaps a2 then
         JValue.jarr ((walkIdx a1 mergeKey).map fun p => JValue.jobj p.2)
       else JValue.jarr a2
     | none => JValue.jarr a2)
  | _, _ => JValue.jarr a2

/-- One step of `mergeArrayOfMapsByKey`'s second loop for a map element `m`
with key value `keyVal`: merge onto the indexed element with the same key,
or append. -/
def idxNext (mergeExisting : JObj → JObj) (idx : List (JValue × JObj)) (m : JObj)
    (keyVal : Option JValue) : List (JValue × JObj) :=
  match keyVal with
  | some id =>
    (match idxLookup idx id with
     | some existing => idxUpdate idx id (mergeExisting existing)
     | none => idx ++ [(id, m)])
  | none => idx

mutual

/-- `MergeMaps` on explicit fuel.  The first `JObj` argument of the fold is
the Go `result` map (initialised to a copy of `map1`); the list argument is
the remaining overlay entries.  The Go `switch` is split on the overlay
value's shape. -/
def mergeFuel : Nat → JObj → JObj → MergeCfg → JObj
  | _, result, [], _ => result
  | 0, result, _ :: _, _ => result
  | fuel + 1, result, (k, JValue.jobj o2) :: rest, cfg =>
    mergeFuel fuel
      (jinsert result k (objNewVal (fun o1 => mergeFuel fuel o1 o2 cfg) o2 (jlookup result k)))
      rest cfg
  | fuel + 1, result, (k, JValue.jarr a2) :: rest, cfg =>
    mergeFuel fuel
      (jinsert result k (arrNewVal
        (fun a1 mergeKey => indexFuel fuel (indexArr1 [] a1 mergeKey) a2 mergeKey cfg)
        k a2 (jlookup result k) cfg))
      rest cfg
  | fuel + 1, result, (k, v2) :: rest, cfg =>
    mergeFuel fuel (jinsert result k v2) rest cfg

/-- Second loop of `mergeArrayOfMapsByKey` on explicit fuel: merge the
elements of `arr2` into the index (elements that are not maps, or lack the
key, are skipped). -/
def indexFuel : Nat → List (JValue × JObj) → List JValue → String → MergeCfg →
    List (JValue × JObj)
  | _, idx, [], _, _ => idx
  | 0, idx, _ :: _, _, _ => idx
  | fuel + 1, idx, JValue.jobj m :: rest, key, cfg =>
    indexFuel fuel
      (idxNext (fun existing => mergeFuel fuel existing m cfg) idx m (jlookup m key))
      rest key cfg
  | fuel + 1, idx, _ :: rest, key, cfg => indexFuel fuel idx rest key cfg

end

/-- Go `MergeMaps(map1, map2, cfg)`: copy `map1` into `result`, then merge
every entry of `map2` onto it (`map2` wins on conflicts; nested maps merge
recursively; arrays of maps merge by key when configured). -/
def MergeMaps (map1 map2 : JObj) (cfg : MergeCfg) : JObj :=
  mergeFuel (osize map2) map1 map2 cfg

/-- Go `mergeArrayOfMapsByKey(arr1, arr2, key, cfg)`. -/
def mergeArrayOfMapsByKey (arr1 arr2 : List JValue) (key : String) (cfg : MergeCfg) :
    List JValue :=
  (indexFuel (lsize arr2) (indexArr1 [] arr1 key) arr2 key cfg).map fun p => JValue.jobj p.2

/-- The second loop with exactly enough fuel (used to state step equations). -/
def indexArr2 (idx : List (JValue × JObj)) (arr2 : List JValue) (key : String)
    (cfg : MergeCfg) : List (JValue × JObj) :=
  indexFuel (lsize arr2) idx arr2 key cfg

/-- The value `MergeMaps` stores for one overlay entry `(k, v2)` (the body of
the Go `switch`, expressed with the total wrappers). -/
def mergeValue (result : JObj) (k : String) (v2 : JValue) (cfg : MergeCfg) : JValue :=
  match v2 with
  | JValue.jobj o2 => objNewVal (fun o1 => MergeMaps o1 o2 cfg) o2 (jlookup result k)
  | JValue.jarr a2 =>
    arrNewVal (fun a1 mergeKey => indexArr2 (indexArr1 [] a1 mergeKey) a2 mergeKey cfg)
      k a2 (jlookup result k) cfg
  | v2 => v2

theorem mergeFuel_nil (n : Nat) (r : JObj) (cfg : MergeCfg) : mergeFuel n r [] cfg = r := by
  cases n <;> rfl

theorem indexFuel_nil (n : Nat) (idx : List (JValue × JObj)) (key : String) (cfg : MergeCfg) :
    indexFuel n idx [] key cfg = idx := by
  cases n <;> rfl

theorem objNewVal_congr (f g : JObj → JObj) (o2 : JObj) (v1 : Option JValue)
    (h : ∀ o1, f o1 = g o1) : objNewVal f o2 v1 = objNewVal g o2 v1 := by
  rcases v1 with _ | w
  · rfl
  · cases w <;> simp [objNewVal, h]

theorem arrNewVal_congr (f g : List JValue → String → List (JValue × JObj)) (k : String)
    (a2 : List JValue) (v1 : Option JValue) (cfg : MergeCfg)
    (h : ∀ a1 mk, f a1 mk = g a1 mk) : arrNewVal f k a2 v1 cfg = arrNewVal g k a2 v1 cfg := by
  rcases v1 with _ | w
  · cases cfg <;> rfl
  · cases w <;> cases cfg <;> simp [arrNewVal, h]

theorem idxNext_congr (f g : JObj → JObj) (idx : List (JValue × JObj)) (m : JObj)
    (keyVal : Option JValue) (h : ∀ o, f o = g o) :
    idxNext f idx m keyVal = idxNext g idx m keyVal := by
  rcases keyVal with _ | id
  · rfl
  · rcases idxLookup idx id with _ | existing <;> simp [idxNext, h]

/-- Any fuel at least the overlay's size computes the same result as the
canonical fuel: the Go recursion is total and the fuel is an artefact of
the embedding. -/
theorem mergeFuel_stable :
    ∀ s : Nat,
      (∀ n r m2 cfg, osize m2 ≤ s → osize m2 ≤ n →
        mergeFuel n r m2 cfg = mergeFuel (osize m2) r m2 cfg) ∧
      (∀ n idx a2 key cfg, lsize a2 ≤ s → lsize a2 ≤ n →
        indexFuel n idx a2 key cfg = indexFuel (lsize a2) idx a2 key cfg) := by
  intro s
  induction s using Nat.strong_induction_on with
  | _ s IH =>
  constructor
  · intro n r m2 cfg hs hn
    match m2 with
    | [] => rw [mergeFuel_nil, mergeFuel_nil]
    | (k, v2) :: rest =>
      have h1 : 1 ≤ jsize v2 := jsize_pos v2
      simp only [osize] at hs hn ⊢
      match n with
      | 0 => omega
      | n + 1 =>
        have hrest : osize rest < s := by omega
        have hR : ∀ f1 f2 : Nat, osize rest ≤ f1 → osize rest ≤ f2 →
            ∀ X : JObj, mergeFuel f1 X rest cfg = mergeFuel f2 X rest cfg := by
          intro f1 f2 hf1 hf2 X
          rw [(IH _ hrest).1 f1 X rest cfg le_rfl hf1, (IH _ hrest).1 f2 X rest cfg le_rfl hf2]
        cases v2 with
        | jnull => exact hR n _ (by omega) (by omega) _
        | jbool b => exact hR n _ (by omega) (by omega) _
        | jnum i => exact hR n _ (by omega) (by omega) _
        | jstr st => exact hR n _ (by omega) (by omega) _
        | jobj o2 =>
          simp only [jsize] at hs hn ⊢
          have ho : osize o2 < s := by omega
          show mergeFuel n
              (jinsert r k (objNewVal (fun o1 => mergeFuel n o1 o2 cfg) o2 (jlookup r k)))
              rest cfg = _
          rw [objNewVal_congr (fun o1 => mergeFuel n o1 o2 cfg)
                (fun o1 => mergeFuel (osize o2 + 1 + osize rest) o1 o2 cfg) o2 (jlookup r k)
                (fun o1 => by
                  show mergeFuel n o1 o2 cfg = mergeFuel (osize o2 + 1 + osize rest) o1 o2 cfg
                  rw [(IH _ ho).1 n o1 o2 cfg le_rfl (by omega),
                      (IH _ ho).1 (osize o2 + 1 + osize rest) o1 o2 cfg le_rfl (by omega)])]
          exact hR n _ (by omega) (by omega) _
        | jarr a2 =>
          simp only [jsize] at hs hn ⊢
          have ha : lsize a2 < s := by omega
          show mergeFuel n
              (jinsert r k (arrNewVal
                (fun a1 mergeKey => indexFuel n (indexArr1 [] a1 mergeKey) a2 mergeKey cfg)
                k a2 (jlookup r k) cfg))
              rest cfg = _
          rw [arrNewVal_congr
                (fun a1 mergeKey => indexFuel n (indexArr1 [] a1 mergeKey) a2 mergeKey cfg)
                (fun a1 mergeKey =>
                  indexFuel (lsize a2 + 1 + osize rest) (indexArr1 [] a1 mergeKey) a2 mergeKey cfg)
                k a2 (jlookup r k) cfg
                (fun a1 mk => by
                  show indexFuel n (indexArr1 [] a1 mk) a2 mk cfg =
                    indexFuel (lsize a2 + 1 + osize rest) (indexArr1 [] a1 mk) a2 mk cfg
                  rw [(IH _ ha).2 n (indexArr1 [] a1 mk) a2 mk cfg le_rfl (by omega),
                      (IH _ ha).2 (lsize a2 + 1 + osize rest) (indexArr1 [] a1 mk) a2 mk cfg
                        le_rfl (by omega)])]
          exact hR n _ (by omega) (by omega) _
  · intro n idx a2 key cfg hs hn
    match a2 with
    | [] => rw [indexFuel_nil, indexFuel_nil]
    | item :: rest =>
      have h1 : 1 ≤ jsize item := jsize_pos item
      simp only [lsize] at hs hn ⊢
      match n with
      | 0 => omega
      | n + 1 =>
        have hrest : lsize rest < s := by omega
        have hR : ∀ f1 f2 : Nat, lsize rest ≤ f1 → lsize rest ≤ f2 →
            ∀ X : List (JValue × JObj), indexFuel f1 X rest key cfg = indexFuel f2 X rest key cfg := by
          intro f1 f2 hf1 hf2 X
          rw [(IH _ hrest).2 f1 X rest key cfg le_rfl hf1,
              (IH _ hrest).2 f2 X rest key cfg le_rfl hf2]
        cases item with
        | jnull => exact hR n _ (by omega) (by omega) _
        | jbool b => exact hR n _ (by omega) (by omega) _
        | jnum i => exact hR n _ (by omega) (by omega) _
        | jstr st => exact hR n _ (by omega) (by omega) _
        | jarr aa => exact hR n _ (by omega) (by omega) _
        | jobj m =>
          simp only [jsize] at hs hn ⊢
          have hm : osize m < s := by omega
          show indexFuel n
              (idxNext (fun existing => mergeFuel n existing m cfg) idx m (jlookup m key))
              rest key cfg = _
          rw [idxNext_congr (fun existing => mergeFuel n existing m cfg)
                (fun existing => mergeFuel (osize m + 1 + lsize rest) existing m cfg) idx m
                (jlookup m key)
                (fun o => by
                  show mergeFuel n o m cfg = mergeFuel (osize m + 1 + lsize rest) o m cfg
                  rw [(IH _ hm).1 n o m cfg le_rfl (by omega),
                      (IH _ hm).1 (osize m + 1 + lsize rest) o m cfg le_rfl (by omega)])]
          exact hR n _ (by omega) (by omega) _

theorem mergeFuel_eq_MergeMaps (n : Nat) (r m2 : JObj) (cfg : MergeCfg) (h : osize m2 ≤ n) :
    mergeFuel n r m2 cfg = MergeMaps r m2 cfg :=
  (mergeFuel_stable (osize m2)).1 n r m2 cfg le_rfl h

theorem indexFuel_eq_indexArr2 (n : Nat) (idx : List (JValue × JObj)) (a2 : List JValue)
    (key : String) (cfg : MergeCfg) (h : lsize a2 ≤ n) :
    indexFuel n idx a2 key cfg = indexArr2 idx a2 key cfg :=
  (mergeFuel_stable (lsize a2)).2 n idx a2 key cfg le_rfl h

theorem MergeMaps_nil (r : JObj) (cfg : MergeCfg) : MergeMaps r [] cfg = r := rfl

/-- One step of the Go fold over the overlay map. -/
theorem MergeMaps_cons (r : JObj) (k : String) (v2 : JValue) (rest : JObj) (cfg : MergeCfg) :
    MergeMaps r ((k, v2) :: rest) cfg =
      MergeMaps (jinsert r k (mergeValue r k v2 cfg)) rest cfg := by
  cases v2 with
  | jnull =>
    have step : MergeMaps r ((k, JValue.jnull) :: rest) cfg =
        mergeFuel (1 + osize rest) (jinsert r k JValue.jnull) rest cfg := rfl
    rw [step, mergeFuel_eq_MergeMaps _ _ rest cfg (by omega)]
    rfl
  | jbool b =>
    have step : MergeMaps r ((k, JValue.jbool b) :: rest) cfg =
        mergeFuel (1 + osize rest) (jinsert r k (JValue.jbool b)) rest cfg := rfl
    rw [step, mergeFuel_eq_MergeMaps _ _ rest cfg (by omega)]
    rfl
  | jnum i =>
    have step : MergeMaps r ((k, JValue.jnum i) :: rest) cfg =
        mergeFuel (1 + osize rest) (jinsert r k (JValue.jnum i)) rest cfg := rfl
    rw [step, mergeFuel_eq_MergeMaps _ _ rest cfg (by omega)]
    rfl
  | jstr st =>
    have step : MergeMaps r ((k, JValue.jstr st) :: rest) cfg =
        mergeFuel (1 + osize rest) (jinsert r k (JValue.jstr st)) rest cfg := rfl
    rw [step, mergeFuel_eq_MergeMaps _ _ rest cfg (by omega)]
    rfl
  | jobj o2 =>
    have step : MergeMaps r ((k, JValue.jobj o2) :: rest) cfg =
        mergeFuel (osize o2 + 1 + osize rest)
          (jinsert r k (objNewVal
            (fun o1 => mergeFuel (osize o2 + 1 + osize rest) o1 o2 cfg) o2 (jlookup r k)))
          rest cfg := rfl
    rw [step, objNewVal_congr _ (fun o1 => MergeMaps o1 o2 cfg) o2 (jlookup r k)
          (fun o1 => mergeFuel_eq_MergeMaps _ o1 o2 cfg (by omega)),
        mergeFuel_eq_MergeMaps _ _ rest cfg (by omega)]
    rfl
  | jarr a2 =>
    have step : MergeMaps r ((k, JValue.jarr a2) :: rest) cfg =
        mergeFuel (lsize a2 + 1 + osize rest)
          (jinsert r k (arrNewVal
            (fun a1 mergeKey =>
              indexFuel (lsize a2 + 1 + osize rest) (indexArr1 [] a1 mergeKey) a2 mergeKey cfg)
            k a2 (jlookup r k) cfg))
          rest cfg := rfl
    rw [step, arrNewVal_congr _
          (fun a1 mergeKey => indexArr2 (indexArr1 [] a1 mergeKey) a2 mergeKey cfg)
          k a2 (jlookup r k) cfg
          (fun a1 mk => indexFuel_eq_indexArr2 _ _ a2 mk cfg (by omega)),
        mergeFuel_eq_MergeMaps _ _ rest cfg (by omega)]
    rfl

theorem indexArr2_nil (idx : List (JValue × JObj)) (key : String) (cfg : MergeCfg) :
    indexArr2 idx [] key cfg = idx := rfl

/-- One step of the Go fold over the overlay array, for a map element. -/
theorem indexArr2_cons_obj (idx : List (JValue × JObj)) (m : JObj) (rest : List JValue)
    (key : String) (cfg : MergeCfg) :
    indexArr2 idx (JValue.jobj m :: rest) key cfg =
      indexArr2 (idxNext (fun existing => MergeMaps existing m cfg) idx m (jlookup m key))
        rest key cfg := by
  have step : indexArr2 idx (JValue.jobj m :: rest) key cfg =
      indexFuel (osize m + 1 + lsize rest)
        (idxNext (fun existing => mergeFuel (osize m + 1 + lsize rest) existing m cfg)
          idx m (jlookup m key))
        rest key cfg := rfl
  rw [step, idxNext_congr _ (fun existing => MergeMaps existing m cfg) idx m (jlookup m key)
        (fun o => mergeFuel_eq_MergeMaps _ o m cfg (by omega)),
      indexFuel_eq_indexArr2 _ _ rest key cfg (by omega)]

/-- One step of the second loop for an element that is not a map: skipped. -/
theorem indexArr2_cons_other (idx : List (JValue × JObj)) (v : JValue) (rest : List JValue)
    (key : String) (cfg : MergeCfg) (h : isMap v = false) :
    indexArr2 idx (v :: rest) key cfg = indexArr2 idx rest key cfg := by
  cases v with
  | jnull =>
    rw [show indexArr2 idx (JValue.jnull :: rest) key cfg =
          indexFuel (1 + lsize rest) idx rest key cfg from rfl,
        indexFuel_eq_indexArr2 _ _ rest key cfg (by omega)]
  | jbool b =>
    rw [show indexArr2 idx (JValue.jbool b :: rest) key cfg =
          indexFuel (1 + lsize rest) idx rest key cfg from rfl,
        indexFuel_eq_indexArr2 _ _ rest key cfg (by omega)]
  | jnum i =>
    rw [show indexArr2 idx (JValue.jnum i :: rest) key cfg =
          indexFuel (1 + lsize rest) idx rest key cfg from rfl,
        indexFuel_eq_indexArr2 _ _ rest key cfg (by omega)]
  | jstr st =>
    rw [show indexArr2 idx (JValue.jstr st :: rest) key cfg =
          indexFuel (1 + lsize rest) idx rest key cfg from rfl,
        indexFuel_eq_indexArr2 _ _ rest key cfg (by omega)]
  | jarr aa =>
    rw [show indexArr2 idx (JValue.jarr aa :: rest) key cfg =
          indexFuel (lsize aa + 1 + lsize rest) idx rest key cfg from rfl,
        indexFuel_eq_indexArr2 _ _ rest key cfg (by omega)]
  | jobj m => simp [isMap] at h

/-! ## Well-formed documents

A document decoded by `json.Unmarshal` never repeats a field name inside
one object; `owfKeys` states that, recursively, for the association-list
model. -/

def hasKey : JObj → String → Bool
  | [], _ => false
  | (k, _) :: rest, key => k == key || hasKey rest key

mutual

def jwfKeys : JValue → Bool
  | .jarr a => awfKeys a
  | .jobj o => owfKeys o
  | _ => true

def awfKeys : List JValue → Bool
  | [] => true
  | v :: rest => jwfKeys v && awfKeys rest

def owfKeys : JObj → Bool
  | [] => true
  | (k, v) :: rest => !(hasKey rest k) && jwfKeys v && owfKeys rest

end

theorem hasKey_of_mem (o : JObj) (p : String × JValue) (h : p ∈ o) : hasKey o p.1 = true := by
  induction o with
  | nil => simp at h
  | cons q rest ih =>
    obtain ⟨k1, v1⟩ := q
    rcases List.mem_cons.mp h with h | h
    · subst h
      simp [hasKey]
    · simp [hasKey, ih h]

/-- In an object with no repeated field names, every entry is what lookup at
its own key returns. -/
theorem owf_lookup_self (o : JObj) (hwf : owfKeys o = true) :
    ∀ p ∈ o, jlookup o p.1 = some p.2 := by
  induction o with
  | nil => intro p h; simp at h
  | cons q rest ih =>
    obtain ⟨k1, v1⟩ := q
    simp only [owfKeys, Bool.and_eq_true, Bool.not_eq_true'] at hwf
    intro p hp
    rcases List.mem_cons.mp hp with h | h
    · subst h
      simp [jlookup]
    · have hne : k1 ≠ p.1 := by
        intro he
        have hm := hasKey_of_mem rest p h
        rw [← he] at hm
        rw [hm] at hwf
        simp at hwf
      simp [jlookup, hne, ih hwf.2 p h]

theorem owfKeys_values (o : JObj) (hwf : owfKeys o = true) :
    ∀ p ∈ o, jwfKeys p.2 = true := by
  induction o with
  | nil => intro p h; simp at h
  | cons q rest ih =>
    obtain ⟨k1, v1⟩ := q
    simp only [owfKeys, Bool.and_eq_true] at hwf
    intro p hp
    rcases List.mem_cons.mp hp with h | h
    · subst h; exact hwf.1.2
    · exact ih hwf.2 p h

/-- Merging a document onto a document it is already contained in (in the
lookup sense) changes nothing, provided no keyed-array rule fires. -/
theorem merge_sub_self :
    ∀ s : Nat, ∀ (D m2 : JObj) (cfg : MergeCfg), osize m2 ≤ s →
      owfKeys m2 = true →
      (∀ p ∈ m2, jlookup D p.1 = some p.2) →
      (∀ k, cfgRule cfg k = none) →
      MergeMaps D m2 cfg = D := by
  intro s
  induction s using Nat.strong_induction_on with
  | _ s IH =>
  intro D m2 cfg hs hwf hsub hr
  match m2 with
  | [] => exact MergeMaps_nil D cfg
  | (k, v2) :: rest =>
    have h1 : 1 ≤ jsize v2 := jsize_pos v2
    simp only [osize] at hs
    simp only [owfKeys, Bool.and_eq_true] at hwf
    have hk : jlookup D k = some v2 := hsub (k, v2) (List.mem_cons_self _ _)
    have hval : mergeValue D k v2 cfg = v2 := by
      cases v2 with
      | jnull => rfl
      | jbool b => rfl
      | jnum i => rfl
      | jstr st => rfl
      | jobj o2 =>
        have ho2 : osize o2 < s := by simp [jsize] at hs; omega
        have hwo2 : owfKeys o2 = true := by simpa [jwfKeys] using hwf.1.2
        have : MergeMaps o2 o2 cfg = o2 :=
          IH _ ho2 o2 o2 cfg le_rfl hwo2 (owf_lookup_self o2 hwo2) hr
        simp [mergeValue, hk, objNewVal, this]
      | jarr a2 =>
        simp only [mergeValue, hk]
        cases cfg with
        | none => rfl
        | some rules =>
          have : lookupRule rules k = none := hr k
          simp [arrNewVal, this]
    rw [MergeMaps_cons, hval, jinsert_lookup_eq D k v2 hk]
    exact IH (osize rest) (by omega) D rest cfg le_rfl hwf.2
      (fun p hp => hsub p (List.mem_cons_of_mem _ hp)) hr

/-! ## Claim C6: idempotence of merge -/

/-- A document whose "files" array holds an element lacking the merge key
"name". -/
def c6bad : JObj := [("files", JValue.jarr [JValue.jobj [("v", JValue.jnum 1)]])]

/-- A well-formed document with a scalar, a nested object and a keyed
array. -/
def c6doc : JObj :=
  [("a", JValue.jnum 1),
   ("spec", JValue.jobj [("path", JValue.jstr "s3://bucket/proj")]),
   ("files", JValue.jarr [JValue.jobj [("name", JValue.jstr "f"), ("size", JValue.jnum 7)]])]

/-- Claim C6, counterexample: under the keyed-array rule `files ↦ name`,
`merge(D, D)` is **not** `D` for every document `D`: an array element that
lacks the merge key is dropped by `mergeArrayOfMapsByKey` (it is never
indexed), so the merged "files" array is empty while `D`'s holds one
element — a difference of content, not of field order. -/
theorem C6_counterexample_merge_self :
    MergeMaps c6bad c6bad (some [("files", "name")]) = [("files", JValue.jarr [])] ∧
    jlookup c6bad "files" = some (JValue.jarr [JValue.jobj [("v", JValue.jnum 1)]]) ∧
    MergeMaps c6bad c6bad (some [("files", "name")]) ≠ c6bad := by
  refine ⟨rfl, rfl, ?_⟩
  decide

/-- Claim C6 (amended): `merge(D, {}) = D` for every document `D` and every
rule configuration; and `merge(D, D) = D` for every document `D` without
repeated field names, provided no keyed-array rule fires (in particular for
the empty rule configuration that the upload orchestrator passes on every
status update).  With a rule configured the second identity can fail, as
the counterexample shows. -/
theorem C6_merge_identity (D : JObj) (cfg cfg2 : MergeCfg)
    (hwf : owfKeys D = true) (hr : ∀ k, cfgRule cfg k = none) :
    MergeMaps D [] cfg2 = D ∧ MergeMaps D D cfg = D :=
  ⟨MergeMaps_nil D cfg2,
   merge_sub_self (osize D) D D cfg le_rfl hwf (owf_lookup_self D hwf) hr⟩

/-- Witness for C6: the identities hold on a concrete nested document, with
the empty (non-nil) rule configuration used by the orchestrator. -/
theorem C6_merge_identity_witness :
    owfKeys c6doc = true ∧
    MergeMaps c6doc [] (some [("files", "name")]) = c6doc ∧
    MergeMaps c6doc c6doc (some []) = c6doc := by
  have h := C6_merge_identity c6doc (some []) (some [("files", "name")])
    (by decide) (fun k => rfl)
  exact ⟨by decide, h.1, h.2⟩

/-! ## Claim C5: keyed array merge

`keyedMergeSpec` below transcribes the spec's §4.5 sentence — "index each
side's elements by that key's value and merge same-key elements
recursively (overlay's element wins where both have non-document values),
preserving elements unique to either side" — and the claim theorem proves
the code's `mergeArrayOfMapsByKey` equal to it. -/

/-- Every element is a map holding the merge key. -/
def allKeyedObjs (key : String) : List JValue → Bool
  | [] => true
  | JValue.jobj m :: rest => (jlookup m key).isSome && allKeyedObjs key rest
  | _ :: _ => false

/-- The key values of the keyed map elements, in order. -/
def keyValsOf (key : String) : List JValue → List JValue
  | [] => []
  | JValue.jobj m :: rest =>
    (match jlookup m key with
     | some id => [id]
     | none => []) ++ keyValsOf key rest
  | _ :: rest => keyValsOf key rest

/-- The first element of `arr` that is a map whose value at `key` is `idv`
(spec side: "index each side's elements by that key's value"). -/
def findByKey (key : String) (idv : JValue) : List JValue → Option JObj
  | [] => none
  | JValue.jobj m :: rest =>
    (match jlookup m key with
     | some w => if jeq w idv then some m else findByKey key idv rest
     | none => findByKey key idv rest)
  | _ :: rest => findByKey key idv rest

/-- The spec's keyed array merge: each `arr1` element is merged with the
same-key `arr2` element when one exists (the overlay element winning on
non-document values, via the recursive `MergeMaps`), and each `arr2`
element whose key value appears nowhere in `arr1` is preserved. -/
def keyedMergeSpec (arr1 arr2 : List JValue) (key : String) (cfg : MergeCfg) : List JValue :=
  (arr1.filterMap fun e =>
    match e with
    | JValue.jobj m =>
      (match jlookup m key with
       | some idv =>
         (match findByKey key idv arr2 with
          | some m2 => some (JValue.jobj (MergeMaps m m2 cfg))
          | none => some (JValue.jobj m))
       | none => none)
    | _ => none)
  ++ (arr2.filterMap fun e =>
    match e with
    | JValue.jobj m =>
      (match jlookup m key with
       | some idv =>
         (match findByKey key idv arr1 with
          | some _ => none
          | none => some (JValue.jobj m))
       | none => none)
    | _ => none)

/-- The entries `indexArr1` collects, in order (its accumulator-free
characterisation when key values do not repeat). -/
def pairsOf (key : String) : List JValue → List (JValue × JObj)
  | [] => []
  | JValue.jobj m :: rest =>
    (match jlookup m key with
     | some id => [(id, m)]
     | none => []) ++ pairsOf key rest
  | _ :: rest => pairsOf key rest

/-- What the second loop does to an already-indexed entry: merge the
same-key `arr2` element onto it, if any. -/
def mergeEntry (key : String) (cfg : MergeCfg) (arr2 : List JValue) (p : JValue × JObj) :
    JValue × JObj :=
  match findByKey key p.1 arr2 with
  | some m2 => (p.1, MergeMaps p.2 m2 cfg)
  | none => p

/-- The entries the second loop appends: keyed `arr2` elements whose key
value is not in the index. -/
def newOnes (key : String) (idx : List (JValue × JObj)) : List JValue → List (JValue × JObj)
  | [] => []
  | JValue.jobj m :: rest =>
    (match jlookup m key with
     | some id =>
       (match idxLookup idx id with
        | some _ => []
        | none => [(id, m)])
     | none => []) ++ newOnes key idx rest
  | _ :: rest => newOnes key idx rest

theorem idxLookup_append (a b : List (JValue × JObj)) (id : JValue) :
    idxLookup (a ++ b) id =
      (match idxLookup a id with
       | some m => some m
       | none => idxLookup b id) := by
  induction a with
  | nil => simp [idxLookup]
  | cons p rest ih =>
    obtain ⟨id1, m1⟩ := p
    by_cases h : jeq id1 id <;> simp [idxLookup, h, ih]

theorem idxLookup_none_iff (idx : List (JValue × JObj)) (id : JValue) :
    idxLookup idx id = none ↔ id ∉ idx.map Prod.fst := by
  induction idx with
  | nil => simp [idxLookup]
  | cons p rest ih =>
    obtain ⟨id1, m1⟩ := p
    rw [List.map_cons, List.mem_cons]
    by_cases h : jeq id1 id
    · have he : id1 = id := (jeq_iff _ _).mp h
      subst he
      simp [idxLookup, h]
    · have hne : id1 ≠ id := fun he => h ((jeq_iff _ _).mpr he)
      rw [show idxLookup ((id1, m1) :: rest) id = idxLookup rest id by simp [idxLookup, h], ih]
      constructor
      · intro hh hmem
        rcases hmem with he | hm
        · exact hne he.symm
        · exact hh hm
      · intro hh hm
        exact hh (Or.inr hm)

theorem idxLookup_isSome_iff (idx : List (JValue × JObj)) (id : JValue) :
    (idxLookup idx id).isSome = true ↔ id ∈ idx.map Prod.fst := by
  rcases h : idxLookup idx id with _ | m
  · simp only [Option.isSome_none, Bool.false_eq_true, false_iff]
    exact (idxLookup_none_iff idx id).mp h
  · simp only [Option.isSome_some, true_iff]
    by_contra hmem
    rw [← idxLookup_none_iff] at hmem
    rw [hmem] at h
    cases h

theorem idxKeys_update (idx : List (JValue × JObj)) (id : JValue) (X : JObj) :
    (idxUpdate idx id X).map Prod.fst = idx.map Prod.fst := by
  induction idx with
  | nil => rfl
  | cons p rest ih =>
    obtain ⟨id1, m1⟩ := p
    by_cases h : jeq id1 id <;> simp [idxUpdate, h, ih]

theorem idxLookup_update_isSome (idx : List (JValue × JObj)) (id y : JValue) (X : JObj) :
    (idxLookup (idxUpdate idx id X) y).isSome = (idxLookup idx y).isSome := by
  rcases h1 : (idxLookup (idxUpdate idx id X) y) with _ | m1 <;>
    rcases h2 : (idxLookup idx y) with _ | m2 <;> try rfl
  · rw [idxLookup_none_iff, idxKeys_update, ← idxLookup_none_iff] at h1
    rw [h1] at h2
    cases h2
  · rw [idxLookup_none_iff] at h2
    rw [← idxKeys_update idx id X, ← idxLookup_none_iff] at h2
    rw [h2] at h1
    cases h1

theorem pairsOf_keys (key : String) (l : List JValue) :
    (pairsOf key l).map Prod.fst = keyValsOf key l := by
  induction l with
  | nil => rfl
  | cons v rest ih =>
    cases v with
    | jobj m =>
      cases h : jlookup m key <;> simp [pairsOf, keyValsOf, h, ih]
    | jnull => simp [pairsOf, keyValsOf, ih]
    | jbool b => simp [pairsOf, keyValsOf, ih]
    | jnum i => simp [pairsOf, keyValsOf, ih]
    | jstr s => simp [pairsOf, keyValsOf, ih]
    | jarr a => simp [pairsOf, keyValsOf, ih]

theorem findByKey_none_iff (key : String) (idv : JValue) (l : List JValue) :
    findByKey key idv l = none ↔ idv ∉ keyValsOf key l := by
  induction l with
  | nil => simp [findByKey, keyValsOf]
  | cons v rest ih =>
    cases v with
    | jobj m =>
      cases h : jlookup m key with
      | none => simp [findByKey, keyValsOf, h, ih]
      | some w =>
        by_cases hw : jeq w idv
        · have : w = idv := (jeq_iff _ _).mp hw
          subst this
          simp [findByKey, keyValsOf, h, hw]
        · have hne : w ≠ idv := fun he => hw ((jeq_iff _ _).mpr he)
          simp [findByKey, keyValsOf, h, hw, ih]
          exact fun _ he => hne he.symm
    | jnull => simp [findByKey, keyValsOf, ih]
    | jbool b => simp [findByKey, keyValsOf, ih]
    | jnum i => simp [findByKey, keyValsOf, ih]
    | jstr s => simp [findByKey, keyValsOf, ih]
    | jarr a => simp [findByKey, keyValsOf, ih]

/-- When the key values of `arr1` do not repeat and are disjoint from the
accumulator, the first loop of `mergeArrayOfMapsByKey` appends one entry
per keyed element, in order. -/
theorem indexArr1_pairs (key : String) :
    ∀ (arr1 : List JValue) (idx0 : List (JValue × JObj)),
      (keyValsOf key arr1).Nodup →
      (∀ id ∈ keyValsOf key arr1, idxLookup idx0 id = none) →
      indexArr1 idx0 arr1 key = idx0 ++ pairsOf key arr1 := by
  intro arr1
  induction arr1 with
  | nil => intro idx0 _ _; simp [indexArr1, pairsOf]
  | cons v rest ih =>
    intro idx0 hnd hdisj
    cases v with
    | jobj m =>
      cases h : jlookup m key with
      | none =>
        simp only [indexArr1, h, pairsOf]
        rw [ih idx0 (by simpa [keyValsOf, h] using hnd)
              (by intro id hid; exact hdisj id (by simpa [keyValsOf, h] using hid))]
        simp
      | some id =>
        have hmem : id ∈ keyValsOf key (JValue.jobj m :: rest) := by
          simp [keyValsOf, h]
        have h0 : idxLookup idx0 id = none := hdisj id hmem
        have hnd' : (keyValsOf key rest).Nodup ∧ id ∉ keyValsOf key rest := by
          simpa [keyValsOf, h, List.nodup_cons, and_comm] using hnd
        simp only [indexArr1, h, idxSet, h0, pairsOf]
        rw [ih (idx0 ++ [(id, m)])
              hnd'.1
              (by
                intro id2 hid2
                rw [idxLookup_append]
                have hne : id ≠ id2 := fun he => hnd'.2 (he ▸ hid2)
                have : idxLookup idx0 id2 = none :=
                  hdisj id2 (by simp [keyValsOf, h, hid2])
                rw [this]
                simp only [idxLookup]
                rw [if_neg (fun hj => hne ((jeq_iff _ _).mp hj))]),
            List.append_assoc]
    | jnull =>
      simp only [indexArr1, pairsOf]
      exact ih idx0 (by simpa [keyValsOf] using hnd)
        (by intro id hid; exact hdisj id (by simpa [keyValsOf] using hid))
    | jbool b =>
      simp only [indexArr1, pairsOf]
      exact ih idx0 (by simpa [keyValsOf] using hnd)
        (by intro id hid; exact hdisj id (by simpa [keyValsOf] using hid))
    | jnum i =>
      simp only [indexArr1, pairsOf]
      exact ih idx0 (by simpa [keyValsOf] using hnd)
        (by intro id hid; exact hdisj id (by simpa [keyValsOf] using hid))
    | jstr s =>
      simp only [indexArr1, pairsOf]
      exact ih idx0 (by simpa [keyValsOf] using hnd)
        (by intro id hid; exact hdisj id (by simpa [keyValsOf] using hid))
    | jarr a =>
      simp only [indexArr1, pairsOf]
      exact ih idx0 (by simpa [keyValsOf] using hnd)
        (by intro id hid; exact hdisj id (by simpa [keyValsOf] using hid))

/-- `newOnes` only inspects the index through key-presence. -/
theorem newOnes_congr (key : String) (a b : List (JValue × JObj))
    (h : ∀ y, (idxLookup a y).isSome = (idxLookup b y).isSome) :
    ∀ l : List JValue, newOnes key a l = newOnes key b l := by
  intro l
  induction l with
  | nil => rfl
  | cons v rest ih =>
    cases v with
    | jobj m =>
      cases hk : jlookup m key with
      | none => simp [newOnes, hk, ih]
      | some id =>
        have := h id
        rcases ha : idxLookup a id with _ | ma <;> rcases hb : idxLookup b id with _ | mb <;>
          rw [ha, hb] at this <;> simp at this <;> simp [newOnes, hk, ha, hb, ih]
    | jnull => simp [newOnes, ih]
    | jbool b2 => simp [newOnes, ih]
    | jnum i => simp [newOnes, ih]
    | jstr s => simp [newOnes, ih]
    | jarr a2 => simp [newOnes, ih]

/-- Appending a fresh entry whose key value does not occur in `l` does not
change which `l` elements are new. -/
theorem newOnes_append (key : String) (idx : List (JValue × JObj)) (id : JValue) (m : JObj) :
    ∀ l : List JValue, id ∉ keyValsOf key l →
      newOnes key (idx ++ [(id, m)]) l = newOnes key idx l := by
  intro l
  induction l with
  | nil => intro _; rfl
  | cons v rest ih =>
    intro hnot
    cases v with
    | jobj mm =>
      cases hk : jlookup mm key with
      | none => simp only [newOnes, hk]; rw [ih (by simpa [keyValsOf, hk] using hnot)]
      | some id2 =>
        have hne : id ≠ id2 := by
          intro he
          exact hnot (by simp [keyValsOf, hk, he])
        have hrest : id ∉ keyValsOf key rest := fun hm => hnot (by simp [keyValsOf, hk, hm])
        have happ : idxLookup (idx ++ [(id, m)]) id2 = idxLookup idx id2 := by
          rw [idxLookup_append]
          rcases h0 : idxLookup idx id2 with _ | m0
          · simp only [idxLookup]
            rw [if_neg (fun hj => hne ((jeq_iff _ _).mp hj))]
          · rfl
        simp only [newOnes, hk, happ]
        rw [ih hrest]
    | jnull => simp only [newOnes]; exact ih (by simpa [keyValsOf] using hnot)
    | jbool b => simp only [newOnes]; exact ih (by simpa [keyValsOf] using hnot)
    | jnum i => simp only [newOnes]; exact ih (by simpa [keyValsOf] using hnot)
    | jstr s => simp only [newOnes]; exact ih (by simpa [keyValsOf] using hnot)
    | jarr a => simp only [newOnes]; exact ih (by simpa [keyValsOf] using hnot)

theorem map_congrOn {A B : Type} (l : List A) (f g : A → B) (h : ∀ a ∈ l, f a = g a) :
    l.map f = l.map g := by
  induction l with
  | nil => rfl
  | cons a rest ih =>
    simp only [List.map_cons, h a (List.mem_cons_self a rest)]
    rw [ih (fun b hb => h b (List.mem_cons_of_mem a hb))]

theorem map_id_on {A : Type} (l : List A) (f : A → A) (h : ∀ a ∈ l, f a = a) :
    l.map f = l := by
  induction l with
  | nil => rfl
  | cons a rest ih =>
    simp only [List.map_cons, h a (List.mem_cons_self a rest)]
    rw [ih (fun b hb => h b (List.mem_cons_of_mem a hb))]

theorem findByKey_cons_skip (key : String) (idv v : JValue) (rest : List JValue)
    (h : isMap v = false) :
    findByKey key idv (v :: rest) = findByKey key idv rest := by
  cases v <;> simp_all [findByKey, isMap]

theorem findByKey_cons_obj_none (key : String) (idv : JValue) (m : JObj) (rest : List JValue)
    (h : jlookup m key = none) :
    findByKey key idv (JValue.jobj m :: rest) = findByKey key idv rest := by
  simp [findByKey, h]

theorem findByKey_cons_obj_ne (key : String) (idv : JValue) (m : JObj) (id : JValue)
    (rest : List JValue) (h : jlookup m key = some id) (hne : id ≠ idv) :
    findByKey key idv (JValue.jobj m :: rest) = findByKey key idv rest := by
  simp only [findByKey, h]
  rw [if_neg (fun hj => hne ((jeq_iff _ _).mp hj))]

theorem findByKey_cons_obj_eq (key : String) (m : JObj) (id : JValue) (rest : List JValue)
    (h : jlookup m key = some id) :
    findByKey key id (JValue.jobj m :: rest) = some m := by
  simp [findByKey, h, jeq_refl]

theorem map_skip_mergeEntry (key : String) (cfg : MergeCfg) (v : JValue) (rest : List JValue)
    (idx : List (JValue × JObj))
    (h : ∀ p ∈ idx, findByKey key p.1 (v :: rest) = findByKey key p.1 rest) :
    idx.map (mergeEntry key cfg (v :: rest)) = idx.map (mergeEntry key cfg rest) :=
  map_congrOn idx _ _ (fun p hp => by simp only [mergeEntry, h p hp])

/-- Updating the unique same-key entry in place realises, entry by entry,
the spec's "merge same-key elements recursively". -/
theorem map_update_mergeEntry (key : String) (cfg : MergeCfg) (m : JObj) (id : JValue)
    (rest : List JValue) (hid : jlookup m key = some id) (hrest : id ∉ keyValsOf key rest) :
    ∀ (idx : List (JValue × JObj)) (existing : JObj),
      (idx.map Prod.fst).Nodup →
      idxLookup idx id = some existing →
      (idxUpdate idx id (MergeMaps existing m cfg)).map (mergeEntry key cfg rest) =
        idx.map (mergeEntry key cfg (JValue.jobj m :: rest)) := by
  intro idx
  induction idx with
  | nil => intro existing _ hlk; cases hlk
  | cons p tail ih =>
    intro existing hnd hlk
    obtain ⟨id1, m1⟩ := p
    by_cases hj : jeq id1 id
    · have he : id1 = id := (jeq_iff _ _).mp hj
      subst he
      have hex : existing = m1 := by
        simp [idxLookup, hj] at hlk
        exact hlk.symm
      subst hex
      simp only [idxUpdate, hj, if_true, List.map_cons]
      have hhead : mergeEntry key cfg rest (id1, MergeMaps existing m cfg) =
          (id1, MergeMaps existing m cfg) := by
        simp only [mergeEntry]
        rw [(findByKey_none_iff key id1 rest).mpr hrest]
      have hhead2 : mergeEntry key cfg (JValue.jobj m :: rest) (id1, existing) =
          (id1, MergeMaps existing m cfg) := by
        simp only [mergeEntry]
        rw [findByKey_cons_obj_eq key m id1 rest hid]
      rw [hhead, hhead2]
      have hnotin : id1 ∉ tail.map Prod.fst := by
        simp only [List.map_cons, List.nodup_cons] at hnd
        exact hnd.1
      have htail : tail.map (mergeEntry key cfg rest) =
          tail.map (mergeEntry key cfg (JValue.jobj m :: rest)) := by
        apply map_congrOn
        intro q hq
        have hne : id1 ≠ q.1 := by
          intro he
          exact hnotin (he ▸ List.mem_map_of_mem Prod.fst hq)
        simp only [mergeEntry]
        rw [findByKey_cons_obj_ne key q.1 m id1 rest hid hne]
      rw [htail]
    · have hne : id1 ≠ id := fun he => hj ((jeq_iff _ _).mpr he)
      have hlk2 : idxLookup tail id = some existing := by
        simpa [idxLookup, hj] using hlk
      simp only [idxUpdate, hj, Bool.false_eq_true, if_false, List.map_cons]
      have hhead : mergeEntry key cfg (JValue.jobj m :: rest) (id1, m1) =
          mergeEntry key cfg rest (id1, m1) := by
        simp only [mergeEntry]
        rw [findByKey_cons_obj_ne key id1 m id rest hid (fun he => hne he.symm)]
      rw [hhead]
      have hndt : (tail.map Prod.fst).Nodup := by
        simp only [List.map_cons, List.nodup_cons] at hnd
        exact hnd.2
      rw [ih existing hndt hlk2]

/-- Characterisation of the second loop of `mergeArrayOfMapsByKey` when key
values do not repeat: every indexed entry is merged with its same-key
overlay element, and overlay elements with fresh key values are appended in
order. -/
theorem indexArr2_spec (key : String) (cfg : MergeCfg) :
    ∀ (arr2 : List JValue) (idx : List (JValue × JObj)),
      (keyValsOf key arr2).Nodup →
      (idx.map Prod.fst).Nodup →
      indexArr2 idx arr2 key cfg =
        idx.map (mergeEntry key cfg arr2) ++ newOnes key idx arr2 := by
  intro arr2
  induction arr2 with
  | nil =>
    intro idx _ _
    rw [indexArr2_nil]
    have h1 : newOnes key idx [] = [] := rfl
    rw [h1, List.append_nil,
        map_id_on idx (mergeEntry key cfg []) (fun p _ => by simp [mergeEntry, findByKey])]
  | cons v rest ih =>
    intro idx hnd hidx
    cases v with
    | jobj m =>
      cases hk : jlookup m key with
      | none =>
        rw [indexArr2_cons_obj]
        simp only [idxNext, hk]
        rw [ih idx (by simpa [keyValsOf, hk] using hnd) hidx,
            map_skip_mergeEntry key cfg _ rest idx
              (fun p _ => findByKey_cons_obj_none key p.1 m rest hk)]
        simp [newOnes, hk]
      | some id =>
        have hnd2 : id ∉ keyValsOf key rest ∧ (keyValsOf key rest).Nodup := by
          simpa [keyValsOf, hk, List.nodup_cons] using hnd
        rw [indexArr2_cons_obj]
        simp only [idxNext, hk]
        cases hil : idxLookup idx id with
        | some existing =>
          rw [ih (idxUpdate idx id (MergeMaps existing m cfg)) hnd2.2
                (by rw [idxKeys_update]; exact hidx),
              map_update_mergeEntry key cfg m id rest hk hnd2.1 idx existing hidx hil,
              newOnes_congr key _ idx (fun y => idxLookup_update_isSome idx id y _) rest]
          simp [newOnes, hk, hil]
        | none =>
          have hfresh : id ∉ idx.map Prod.fst := (idxLookup_none_iff idx id).mp hil
          rw [ih (idx ++ [(id, m)]) hnd2.2
                (by
                  simp only [List.map_append, List.map_cons, List.map_nil]
                  rw [List.nodup_append]
                  refine ⟨hidx, List.nodup_singleton id, ?_⟩
                  intro a ha hb
                  simp at hb
                  subst hb
                  exact hfresh ha),
              List.map_append, newOnes_append key idx id m rest hnd2.1]
          have hone : [(id, m)].map (mergeEntry key cfg rest) = [(id, m)] := by
            simp only [List.map_cons, List.map_nil, mergeEntry]
            rw [(findByKey_none_iff key id rest).mpr hnd2.1]
          rw [hone,
              map_skip_mergeEntry key cfg _ rest idx
                (fun p hp => findByKey_cons_obj_ne key p.1 m id rest hk
                  (fun he => hfresh (he ▸ List.mem_map_of_mem Prod.fst hp)))]
          have hnew : newOnes key idx (JValue.jobj m :: rest) =
              (id, m) :: newOnes key idx rest := by
            simp [newOnes, hk, hil]
          rw [hnew, List.append_assoc]
          rfl
    | jnull =>
      rw [indexArr2_cons_other idx (JValue.jnull) rest key cfg rfl,
          ih idx (by simpa [keyValsOf] using hnd) hidx,
          map_skip_mergeEntry key cfg (JValue.jnull) rest idx
            (fun p _ => findByKey_cons_skip key p.1 (JValue.jnull) rest rfl)]
      simp [newOnes]
    | jbool b =>
      rw [indexArr2_cons_other idx (JValue.jbool b) rest key cfg rfl,
          ih idx (by simpa [keyValsOf] using hnd) hidx,
          map_skip_mergeEntry key cfg (JValue.jbool b) rest idx
            (fun p _ => findByKey_cons_skip key p.1 (JValue.jbool b) rest rfl)]
      simp [newOnes]
    | jnum i =>
      rw [indexArr2_cons_other idx (JValue.jnum i) rest key cfg rfl,
          ih idx (by simpa [keyValsOf] using hnd) hidx,
          map_skip_mergeEntry key cfg (JValue.jnum i) rest idx
            (fun p _ => findByKey_cons_skip key p.1 (JValue.jnum i) rest rfl)]
      simp [newOnes]
    | jstr s =>
      rw [indexArr2_cons_other idx (JValue.jstr s) rest key cfg rfl,
          ih idx (by simpa [keyValsOf] using hnd) hidx,
          map_skip_mergeEntry key cfg (JValue.jstr s) rest idx
            (fun p _ => findByKey_cons_skip key p.1 (JValue.jstr s) rest rfl)]
      simp [newOnes]
    | jarr a =>
      rw [indexArr2_cons_other idx (JValue.jarr a) rest key cfg rfl,
          ih idx (by simpa [keyValsOf] using hnd) hidx,
          map_skip_mergeEntry key cfg (JValue.jarr a) rest idx
            (fun p _ => findByKey_cons_skip key p.1 (JValue.jarr a) rest rfl)]
      simp [newOnes]

theorem pairs_map_spec (key : String) (cfg : MergeCfg) (arr2 : List JValue) :
    ∀ arr1 : List JValue,
      ((pairsOf key arr1).map (mergeEntry key cfg arr2)).map (fun p => JValue.jobj p.2) =
        arr1.filterMap fun e =>
          match e with
          | JValue.jobj m =>
            (match jlookup m key with
             | some idv =>
               (match findByKey key idv arr2 with
                | some m2 => some (JValue.jobj (MergeMaps m m2 cfg))
                | none => some (JValue.jobj m))
             | none => none)
          | _ => none := by
  intro arr1
  induction arr1 with
  | nil => rfl
  | cons v rest ih =>
    cases v with
    | jobj m =>
      cases hk : jlookup m key with
      | none => simpa [pairsOf, hk] using ih
      | some id =>
        cases hf : findByKey key id arr2 with
        | none => simp [pairsOf, hk, mergeEntry, hf, ih]
        | some m2 => simp [pairsOf, hk, mergeEntry, hf, ih]
    | jnull => simpa [pairsOf] using ih
    | jbool b => simpa [pairsOf] using ih
    | jnum i => simpa [pairsOf] using ih
    | jstr s => simpa [pairsOf] using ih
    | jarr a => simpa [pairsOf] using ih

theorem newOnes_map_spec (key : String) (arr1 : List JValue) :
    ∀ arr2 : List JValue,
      (newOnes key (pairsOf key arr1) arr2).map (fun p => JValue.jobj p.2) =
        arr2.filterMap fun e =>
          match e with
          | JValue.jobj m =>
            (match jlookup m key with
             | some idv =>
               (match findByKey key idv arr1 with
                | some _ => none
                | none => some (JValue.jobj m))
             | none => none)
          | _ => none := by
  intro arr2
  induction arr2 with
  | nil => rfl
  | cons v rest ih =>
    cases v with
    | jobj m =>
      cases hk : jlookup m key with
      | none => simpa [newOnes, hk] using ih
      | some idv =>
        cases hil : idxLookup (pairsOf key arr1) idv with
        | some existing =>
          have hmem : idv ∈ keyValsOf key arr1 := by
            rw [← pairsOf_keys key arr1]
            exact (idxLookup_isSome_iff _ _).mp (by rw [hil]; rfl)
          rcases hf : findByKey key idv arr1 with _ | m1
          · exact absurd hmem ((findByKey_none_iff key idv arr1).mp hf)
          · simp [newOnes, hk, hil, hf, ih]
        | none =>
          have hnm : idv ∉ keyValsOf key arr1 := by
            rw [← pairsOf_keys key arr1]
            exact (idxLookup_none_iff _ _).mp hil
          have hf : findByKey key idv arr1 = none := (findByKey_none_iff key idv arr1).mpr hnm
          simp [newOnes, hk, hil, hf, ih]
    | jnull => simpa [newOnes] using ih
    | jbool b => simpa [newOnes] using ih
    | jnum i => simpa [newOnes] using ih
    | jstr s => simpa [newOnes] using ih
    | jarr a => simpa [newOnes] using ih

/-- Claim C5: for arrays of documents all carrying the merge key, with the
key a unique identifier on each side, the code's `mergeArrayOfMapsByKey`
computes exactly the spec's keyed merge: one merged element per distinct
key value (same-key elements merged recursively with the overlay winning
on non-document values) and every element unique to either side preserved.
The embedding fixes Go's map iteration order to insertion order, so the
equality here refines the spec's "in any order". -/
theorem C5_keyed_array_merge (arr1 arr2 : List JValue) (key : String) (cfg : MergeCfg)
    (h1 : allKeyedObjs key arr1 = true) (h2 : allKeyedObjs key arr2 = true)
    (hn1 : (keyValsOf key arr1).Nodup) (hn2 : (keyValsOf key arr2).Nodup) :
    mergeArrayOfMapsByKey arr1 arr2 key cfg = keyedMergeSpec arr1 arr2 key cfg := by
  show (indexArr2 (indexArr1 [] arr1 key) arr2 key cfg).map (fun p => JValue.jobj p.2) =
    keyedMergeSpec arr1 arr2 key cfg
  rw [indexArr1_pairs key arr1 [] hn1 (fun id _ => rfl),
      List.nil_append,
      indexArr2_spec key cfg arr2 (pairsOf key arr1) hn2
        (by rw [pairsOf_keys]; exact hn1),
      List.map_append, pairs_map_spec key cfg arr2 arr1, newOnes_map_spec key arr1 arr2]
  rfl

def c5base : List JValue :=
  [JValue.jobj [("name", JValue.jstr "a"), ("v", JValue.jnum 1)],
   JValue.jobj [("name", JValue.jstr "b"), ("v", JValue.jnum 2)]]

def c5overlay : List JValue :=
  [JValue.jobj [("name", JValue.jstr "b"), ("v", JValue.jnum 3)],
   JValue.jobj [("name", JValue.jstr "c"), ("v", JValue.jnum 4)]]

/-- Witness for C5: the spec's concrete example.  Merging the two arrays on
key "name" yields exactly one entry each for a (v=1), b (v=3, the overlay
wins) and c (v=4). -/
theorem C5_keyed_array_merge_witness :
    allKeyedObjs "name" c5base = true ∧ allKeyedObjs "name" c5overlay = true ∧
    (keyValsOf "name" c5base).Nodup ∧ (keyValsOf "name" c5overlay).Nodup ∧
    mergeArrayOfMapsByKey c5base c5overlay "name" (some []) =
      [JValue.jobj [("name", JValue.jstr "a"), ("v", JValue.jnum 1)],
       JValue.jobj [("name", JValue.jstr "b"), ("v", JValue.jnum 3)],
       JValue.jobj [("name", JValue.jstr "c"), ("v", JValue.jnum 4)]] := by
  refine ⟨by decide, by decide, by decide, by decide, ?_⟩
  rw [C5_keyed_array_merge c5base c5overlay "name" (some [])
        (by decide) (by decide) (by decide) (by decide)]
  decide

/-! ## Claims C7: progress aggregator (`globalProgress` in utils)

`render`'s displayed percentage is modelled as a rational; at the points
the claims touch (`done = total`, and the clamp branch where the source
assigns the literal 100) the Go float computation is exact, so no
floating-point behaviour is abstracted away. -/

structure GlobalProgress where
  totalKnown : Bool
  totalBytes : Int
  doneBytes : Int
  spinIdx : Nat
  lastTick : Int
deriving Repr, DecidableEq

/-- What one `render` call writes to the terminal. -/
inductive RenderOut where
  | skipped
  | percent (pct : Rat) (done total : Int)
  | spinner (ch : Char) (done : Int)
deriving Repr, DecidableEq

def spinnerChars : List Char := ['|', '/', '-', '\\']

/-- Go `gp.add(delta)`: a bare increment, no clamping. -/
def GlobalProgress.add (gp : GlobalProgress) (delta : Int) : GlobalProgress :=
  { gp with doneBytes := gp.doneBytes + delta }

/-- Go `gp.render(force)`; `now` is the injected clock (milliseconds).
Unforced renders within 100ms of the last tick are suppressed; with a
known positive total an over-shot counter is clamped to the total and the
percentage reported as 100; without a total a spinner frame is shown. -/
def GlobalProgress.render (gp : GlobalProgress) (force : Bool) (now : Int) :
    GlobalProgress × RenderOut :=
  if force = false ∧ now - gp.lastTick < 100 then (gp, RenderOut.skipped)
  else if gp.totalKnown = true ∧ 0 < gp.totalBytes then
    (if gp.totalBytes < gp.doneBytes then
      ({ gp with lastTick := now, doneBytes := gp.totalBytes },
        RenderOut.percent 100 gp.totalBytes gp.totalBytes)
    else
      ({ gp with lastTick := now },
        RenderOut.percent ((gp.doneBytes : Rat) / (gp.totalBytes : Rat) * 100)
          gp.doneBytes gp.totalBytes))
  else
    ({ gp with lastTick := now, spinIdx := gp.spinIdx + 1 },
      RenderOut.spinner (spinnerChars.getD (gp.spinIdx % spinnerChars.length) ' ')
        gp.doneBytes)

/-- Go `gp.done()`: a forced final render (the trailing newline is UI
only). -/
def GlobalProgress.finish (gp : GlobalProgress) (now : Int) : GlobalProgress × RenderOut :=
  gp.render true now

/-- The aggregator state the C7 scenario starts from: known total of 100
bytes, nothing transferred. -/
def c7gp0 : GlobalProgress :=
  { totalKnown := true, totalBytes := 100, doneBytes := 0, spinIdx := 0, lastTick := 0 }

/-- Claim C7, counterexample: after `add(30)`, `add(70)` a forced `render`
does report 100% — but a further `add(5)` pushes the cumulative byte
counter to 105, above the total of 100: `add` itself never clamps; only
the next `render` does. -/
theorem C7_counterexample_add_overshoot :
    (((c7gp0.add 30).add 70).render true 1000).2 = RenderOut.percent 100 100 100 ∧
    ((((c7gp0.add 30).add 70).render true 1000).1.add 5).doneBytes = 105 ∧
    (100 : Int) < ((((c7gp0.add 30).add 70).render true 1000).1.add 5).doneBytes := by
  refine ⟨?_, by decide, by decide⟩
  show RenderOut.percent ((100 : Rat) / (100 : Rat) * 100) 100 100 =
    RenderOut.percent 100 100 100
  norm_num

/-- Claim C7 (amended): with a known positive total, once the cumulative
counter has reached (or over-shot) the total, any render that fires —
forced, or 100ms past the previous tick — reports exactly 100% and clamps
the stored counter back to the total.  Between `add` and the next firing
render the counter may transiently exceed the total. -/
theorem C7_progress_clamped (gp : GlobalProgress) (force : Bool) (now : Int)
    (hk : gp.totalKnown = true) (hp : 0 < gp.totalBytes)
    (hd : gp.totalBytes ≤ gp.doneBytes)
    (hf : force = true ∨ 100 ≤ now - gp.lastTick) :
    (gp.render force now).2 = RenderOut.percent 100 gp.totalBytes gp.totalBytes ∧
    (gp.render force now).1.doneBytes = gp.totalBytes := by
  have hcond : ¬(force = false ∧ now - gp.lastTick < 100) := by
    rcases hf with hf | hf
    · rintro ⟨h1, _⟩; rw [hf] at h1; cases h1
    · rintro ⟨_, h2⟩; omega
  unfold GlobalProgress.render
  rw [if_neg hcond, if_pos ⟨hk, hp⟩]
  by_cases hgt : gp.totalBytes < gp.doneBytes
  · rw [if_pos hgt]
    exact ⟨rfl, rfl⟩
  · have heq : gp.doneBytes = gp.totalBytes := le_antisymm (not_lt.mp hgt) hd
    rw [if_neg hgt]
    have hne : (gp.totalBytes : Rat) ≠ 0 := by
      have : (0 : Rat) < (gp.totalBytes : Rat) := by exact_mod_cast hp
      exact ne_of_gt this
    constructor
    · show RenderOut.percent ((gp.doneBytes : Rat) / (gp.totalBytes : Rat) * 100)
        gp.doneBytes gp.totalBytes = RenderOut.percent 100 gp.totalBytes gp.totalBytes
      rw [heq, div_self hne, one_mul]
    · exact heq

/-- Witness for C7: the claim's own scenario, `add(30)`, `add(70)` against
`totalBytes = 100`, then a forced render: 100% is reported and the counter
holds exactly 100. -/
theorem C7_progress_clamped_witness :
    (((c7gp0.add 30).add 70).render true 1000).2 = RenderOut.percent 100 100 100 ∧
    (((c7gp0.add 30).add 70).render true 1000).1.doneBytes = 100 :=
  C7_progress_clamped ((c7gp0.add 30).add 70) true 1000 rfl (by decide) (by decide)
    (Or.inl rfl)

/-! ## Claim C9: the object-store adapter's progress writer
(`progressWriter.Write` in s3client.go) -/

structure ProgressWriterState where
  key : String
  total : Int
  written : Int
  lastEmit : Int
  interval : Int
  hasOnProgress : Bool
deriving Repr, DecidableEq

structure WriteResult where
  state : ProgressWriterState
  n : Int
  emitted : Option (String × Int × Int)
deriving Repr, DecidableEq

/-- The progress writer as `UploadFileWithProgress` and
`DownloadFileWithProgress` construct it: zero counters and a 250ms
interval. -/
def newProgressWriter (key : String) (total : Int) (hasCb : Bool) : ProgressWriterState :=
  { key := key, total := total, written := 0, lastEmit := 0, interval := 250,
    hasOnProgress := hasCb }

/-- Go `progressWriter.Write(p)`; `plen = len(p)`, `now` the injected
clock.  The cumulative counter always advances and the write always
reports `(len(p), nil)`; the callback fires only when the cumulative count
reaches the total or `interval` has elapsed since the last emission. -/
def progressWriterWrite (pw : ProgressWriterState) (plen : Int) (now : Int) : WriteResult :=
  if pw.hasOnProgress = true ∧
      (pw.written + plen = pw.total ∨ pw.interval ≤ now - pw.lastEmit) then
    { state := { pw with written := pw.written + plen, lastEmit := now }, n := plen,
      emitted := some (pw.key, pw.written + plen, pw.total) }
  else
    { state := { pw with written := pw.written + plen }, n := plen, emitted := none }

/-- Claim C9, counterexample: a write of 10 bytes 100ms after the last
emission, with 90 bytes still to go, fires no `onProgress` callback even
though a callback is attached — the adapter itself throttles the call
frequency to its 250ms interval. -/
theorem C9_counterexample_write_throttled :
    (progressWriterWrite (newProgressWriter "k" 100 true) 10 100).emitted = none ∧
    (progressWriterWrite (newProgressWriter "k" 100 true) 10 100).n = 10 := by
  refine ⟨by decide, by decide⟩

/-- Claim C9 (amended): with a callback attached, `Write` fires
`onProgress` exactly when the post-write cumulative count equals the total
or at least `interval` (250ms as constructed by the put/get paths) has
elapsed since the last emission — not on every write; when it fires it
reports the key, the cumulative bytes written so far and the total, and
the write itself always succeeds with the full chunk length. -/
theorem C9_write_throttles (pw : ProgressWriterState) (plen now : Int)
    (hcb : pw.hasOnProgress = true) :
    ((progressWriterWrite pw plen now).emitted.isSome = true ↔
      (pw.written + plen = pw.total ∨ pw.interval ≤ now - pw.lastEmit)) ∧
    (∀ k w t, (progressWriterWrite pw plen now).emitted = some (k, w, t) →
      k = pw.key ∧ w = pw.written + plen ∧ t = pw.total) ∧
    (progressWriterWrite pw plen now).n = plen ∧
    (progressWriterWrite pw plen now).state.written = pw.written + plen := by
  unfold progressWriterWrite
  by_cases h : pw.written + plen = pw.total ∨ pw.interval ≤ now - pw.lastEmit
  · rw [if_pos ⟨hcb, h⟩]
    refine ⟨by simpa using h, ?_, rfl, rfl⟩
    intro k w t he
    simp only [Option.some.injEq, Prod.mk.injEq] at he
    exact ⟨he.1.symm, he.2.1.symm, he.2.2.symm⟩
  · rw [if_neg (fun hc => h hc.2)]
    refine ⟨by simpa using h, ?_, rfl, rfl⟩
    intro k w t he
    cases he

/-- Witness for C9: a 10-byte write that completes a 10-byte object fires
the callback with the cumulative count. -/
theorem C9_write_throttles_witness :
    ((progressWriterWrite (newProgressWriter "k" 10 true) 10 5).emitted.isSome = true) ∧
    (progressWriterWrite (newProgressWriter "k" 10 true) 10 5).n = 10 :=
  ⟨(C9_write_throttles (newProgressWriter "k" 10 true) 10 5 rfl).1.mpr
      (Or.inl (by decide)),
   (C9_write_throttles (newProgressWriter "k" 10 true) 10 5 rfl).2.2.1⟩

/-! ## Computable string helpers

The Go code manipulates strings with `strings.HasPrefix/HasSuffix/
TrimPrefix` and friends.  Lean's built-in `String.startsWith`-style
functions are byte-position loops that the kernel cannot reduce, so the
embedding uses character-list equivalents (identical on the ASCII keys,
paths and URLs involved) that compute by `rfl`/`decide`. -/

/-- Go `strings.HasPrefix s pfx`. -/
def strHasPrefix (s pfx : String) : Bool := pfx.data.isPrefixOf s.data

/-- Go `strings.HasSuffix s suf`. -/
def strHasSuffix (s suf : String) : Bool := suf.data.reverse.isPrefixOf s.data.reverse

/-- Go `strings.TrimPrefix s pfx`. -/
def strTrimPrefix (s pfx : String) : String :=
  if strHasPrefix s pfx then String.mk (s.data.drop pfx.data.length) else s

/-- Go `strings.TrimSuffix s suf`. -/
def strTrimSuffix (s suf : String) : String :=
  if strHasSuffix s suf then String.mk (s.data.take (s.data.length - suf.data.length)) else s

/-! ## Claim C8: object-store listing (`ListFilesPaged` / `WalkPrefix`
in s3client.go)

The S3 service is injected: `ListFilesPaged` receives the response to its
single `ListObjectsV2` call; `WalkPrefix` receives the stream of
successive page responses its loop observes for the bucket and prefix it
walks. -/

structure S3Object where
  key : Option String
  size : Int
  lastModified : String
deriving Repr, DecidableEq

structure ListPage where
  contents : List S3Object
  nextToken : Option String
deriving Repr, DecidableEq

structure S3File where
  Path : String
  Name : String
  Size : Int
  LastModified : String
deriving Repr, DecidableEq

/-- A zero-byte key ending in "/" — the "directory marker" placeholder. -/
def isDirPlaceholder (obj : S3Object) : Bool :=
  match obj.key with
  | some k => strHasSuffix k "/" && obj.size == 0
  | none => false

/-- How `ListFilesPaged` renders one listed object (`Name` is the key with
the prefix trimmed when it applies). -/
def toS3File (pfx : String) (obj : S3Object) : S3File :=
  { Path := obj.key.getD ""
    Name := if pfx ≠ "" ∧ strHasPrefix (obj.key.getD "") pfx = true
            then strTrimPrefix (obj.key.getD "") pfx
            else obj.key.getD ""
    Size := obj.size
    LastModified := obj.lastModified }

/-- Go `ListFilesPaged`: one `ListObjectsV2` call, every returned object
mapped to an `S3File` — no filtering of any kind. -/
def ListFilesPaged (svc : String → String → Option Int → Option String → Except String ListPage)
    (bucket pfx : String) (maxKeys : Option Int) (token : Option String) :
    Except String (List S3File × Option String) :=
  match svc bucket pfx maxKeys token with
  | .error e => .error ("failed to list objects in S3: " ++ e)
  | .ok page => .ok (page.contents.map (toS3File pfx), page.nextToken)

/-- One page of Go `WalkPrefix`'s loop body: the per-object callback runs
for every object that has a key and is not a directory placeholder; a
callback error aborts immediately.  Returns the objects delivered to the
callback and the error, if any. -/
def walkPage (fn : S3Object → Except String Unit) :
    List S3Object → List S3Object × Option String
  | [] => ([], none)
  | obj :: rest =>
    if obj.key.isSome = true ∧ isDirPlaceholder obj = false then
      match fn obj with
      | .error e => ([obj], some e)
      | .ok _ =>
        match walkPage fn rest with
        | (tr, err) => (obj :: tr, err)
    else walkPage fn rest

/-- Go `WalkPrefix`: page after page until a page carries no continuation
token (or the service errs); `pages` is the stream of responses the loop
observes. -/
def WalkPrefix (fn : S3Object → Except String Unit) :
    List (Except String ListPage) → List S3Object × Except String Unit
  | [] => ([], Except.ok ())
  | Except.error e :: _ => ([], Except.error ("list error: " ++ e))
  | Except.ok page :: rest =>
    match walkPage fn page.contents with
    | (tr, some e) => (tr, Except.error e)
    | (tr, none) =>
      match page.nextToken with
      | none => (tr, Except.ok ())
      | some t =>
        if t = "" then (tr, Except.ok ())
        else
          match WalkPrefix fn rest with
          | (tr2, res) => (tr ++ tr2, res)

theorem walkPage_delivered (fn : S3Object → Except String Unit) :
    ∀ (l : List S3Object) (obj : S3Object), obj ∈ (walkPage fn l).1 →
      obj.key.isSome = true ∧ isDirPlaceholder obj = false := by
  intro l
  induction l with
  | nil => intro obj h; simp [walkPage] at h
  | cons o rest ih =>
    intro obj hm
    by_cases hc : o.key.isSome = true ∧ isDirPlaceholder o = false
    · rw [walkPage, if_pos hc] at hm
      cases hf : fn o with
      | error e =>
        rw [hf] at hm
        simp at hm
        exact hm ▸ hc
      | ok _ =>
        rw [hf] at hm
        rcases hw : walkPage fn rest with ⟨tr, err⟩
        rw [hw] at hm
        simp at hm
        rcases hm with hm | hm
        · exact hm ▸ hc
        · exact ih obj (by rw [hw]; exact hm)
    · rw [walkPage, if_neg hc] at hm
      exact ih obj hm

theorem WalkPrefix_delivered (fn : S3Object → Except String Unit) :
    ∀ (pages : List (Except String ListPage)) (obj : S3Object),
      obj ∈ (WalkPrefix fn pages).1 →
      obj.key.isSome = true ∧ isDirPlaceholder obj = false := by
  intro pages
  induction pages with
  | nil => intro obj h; simp [WalkPrefix] at h
  | cons p rest ih =>
    intro obj hm
    cases p with
    | error e => simp [WalkPrefix] at hm
    | ok page =>
      rw [WalkPrefix] at hm
      rcases hw : walkPage fn page.contents with ⟨tr, err⟩
      rw [hw] at hm
      have htr : ∀ o ∈ tr, o.key.isSome = true ∧ isDirPlaceholder o = false :=
        fun o ho => walkPage_delivered fn page.contents o (by rw [hw]; exact ho)
      cases err with
      | some e =>
        simp at hm
        exact htr obj hm
      | none =>
        cases ht : page.nextToken with
        | none =>
          rw [ht] at hm
          simp at hm
          exact htr obj hm
        | some t =>
          rw [ht] at hm
          by_cases hte : t = ""
          · subst hte
            simp at hm
            exact htr obj hm
          · rcases hrec : WalkPrefix fn rest with ⟨tr2, res⟩
            rw [hrec] at hm
            simp [hte] at hm
            rcases hm with hm | hm
            · exact htr obj hm
            · exact ih obj (by rw [hrec]; exact hm)
/-- The directory-placeholder page of the C8 scenario: one zero-byte
object whose key "d/" equals the listing prefix. -/
def c8page : ListPage :=
  { contents := [{ key := some "d/", size := 0, lastModified := "t" }], nextToken := none }

/-- Claim C8, counterexample: the zero-byte entry whose key equals the
prefix is excluded by the paginated walk but **delivered** by the
paginated list operation — `ListFilesPaged` performs no placeholder
filtering at all, so the claim's "in both" is false. -/
theorem C8_counterexample_list_keeps_placeholder :
    ListFilesPaged (fun _ _ _ _ => Except.ok c8page) "b" "d/" none none =
      Except.ok ([{ Path := "d/", Name := "", Size := 0, LastModified := "t" }], none) ∧
    (WalkPrefix (fun _ => Except.ok ()) [Except.ok c8page]).1 = [] := by
  constructor
  · show Except.ok ([toS3File "d/" { key := some "d/", size := 0, lastModified := "t" }], none) =
      Except.ok ([{ Path := "d/", Name := "", Size := 0, LastModified := "t" }], (none : Option String))
    decide
  · decide

/-- Claim C8 (amended): the paginated walk never delivers a directory
placeholder (any zero-byte key ending in "/", which covers the zero-byte
key equal to the prefix), while the paginated list operation maps every
object of the service response — placeholders included — into the entries
handed to the caller. -/
theorem C8_placeholder_exclusion
    (fn : S3Object → Except String Unit) (pages : List (Except String ListPage))
    (svc : String → String → Option Int → Option String → Except String ListPage)
    (bucket pfx : String) (maxKeys : Option Int) (token : Option String) (page : ListPage)
    (hsvc : svc bucket pfx maxKeys token = Except.ok page) :
    (∀ obj ∈ (WalkPrefix fn pages).1, isDirPlaceholder obj = false) ∧
    ListFilesPaged svc bucket pfx maxKeys token =
      Except.ok (page.contents.map (toS3File pfx), page.nextToken) := by
  constructor
  · intro obj hm
    exact (WalkPrefix_delivered fn pages obj hm).2
  · unfold ListFilesPaged
    rw [hsvc]

/-- Witness for C8: on the placeholder page, the walk delivers nothing
that is a placeholder (it delivers nothing at all), while the list
operation returns exactly the placeholder entry. -/
theorem C8_placeholder_exclusion_witness :
    (∀ obj ∈ (WalkPrefix (fun _ => Except.ok ()) [Except.ok c8page]).1,
      isDirPlaceholder obj = false) ∧
    ListFilesPaged (fun _ _ _ _ => Except.ok c8page) "b" "d/" none none =
      Except.ok (c8page.contents.map (toS3File "d/"), c8page.nextToken) :=
  C8_placeholder_exclusion (fun _ => Except.ok ()) [Except.ok c8page]
    (fun _ _ _ _ => Except.ok c8page) "b" "d/" none none c8page rfl

/-! ## Path resolver and Core URL builder -/

/-- Split a character list into segments at `c` (Go `strings.Split`). -/
def splitOnCharL (c : Char) : List Char → List (List Char)
  | [] => [[]]
  | x :: rest =>
    match splitOnCharL c rest with
    | [] => if x = c then [[], []] else [[x]]
    | h :: t => if x = c then [] :: h :: t else (x :: h) :: t

/-- Scan for the first `://`, returning the scheme and the remainder. -/
def splitSchemeAux : List Char → List Char → Option (List Char × List Char)
  | acc, ':' :: '/' :: '/' :: rest => some (acc.reverse, rest)
  | acc, x :: rest => splitSchemeAux (x :: acc) rest
  | _, [] => none

def joinSegs : List (List Char) → List Char
  | [] => []
  | [s] => s
  | s :: rest => s ++ '/' :: joinSegs rest

def lastNonEmpty : List (List Char) → List Char
  | [] => []
  | s :: rest =>
    match lastNonEmpty rest with
    | [] => s
    | r => r

structure ParsedPath where
  Scheme : String
  Host : String
  Path : String
  Filename : String
deriving Repr, DecidableEq

/-- Modelled from the spec: `utils.ParsePath` is code of this repository
that is not among the staged files (only its callers are).  Per §2 the
Path Resolver "parses a URI-like locator (scheme + host/bucket + path)
... distinguishing file vs. directory targets by trailing separator";
`spec.path` is `scheme://host[:port]/path` (§3); `Download` (§4.2) uses
`Path` (with a leading "/", which it trims) and `Filename` (the remote
basename, the deepest non-empty segment). -/
def ParsePath (s : String) : Except String ParsedPath :=
  match splitSchemeAux [] s.data with
  | none => Except.error "invalid path: missing scheme"
  | some (schemeChars, restChars) =>
    if schemeChars = [] then Except.error "invalid path: missing scheme"
    else
      match splitOnCharL '/' restChars with
      | [] => Except.error "invalid path"
      | host :: segs =>
        if host = [] then Except.error "invalid path: missing host"
        else
          Except.ok
            { Scheme := String.mk schemeChars
              Host := String.mk host
              Path := if segs = [] then "" else String.mk ('/' :: joinSegs segs)
              Filename := String.mk (lastNonEmpty segs) }

structure CoreConfig where
  BaseURL : String
  APIVersion : String
  AccessToken : String
  BasicAuthUsername : String
  BasicAuthPassword : String
deriving Repr, DecidableEq

def buildParams : String → Bool → List (String × String) → String
  | base, _, [] => base
  | base, first, (k, v) :: rest =>
    if v = "" then buildParams base first rest
    else buildParams (base ++ (if first then "?" else "&") ++ k ++ "=" ++ v) false rest

/-- Go `httpCore.BuildURL` (httpcore.go): base, "/api/", the version,
then (except for the top-level "projects" resource, and when the project
is empty) a "-" segment followed by the project, then the resource, the
optional id, and the query string.  Query parameters are a list (the Go
map iteration order is fixed to list order; `Upload` passes none). -/
def BuildURL (cc : CoreConfig) (project resource id : String)
    (params : List (String × String)) : String :=
  let base := cc.BaseURL ++ "/api/" ++ cc.APIVersion
  let base := if resource ≠ "projects" ∧ project ≠ "" then base ++ "/-/" ++ project else base
  let base := base ++ "/" ++ resource
  let base := if id ≠ "" then base ++ "/" ++ id else base
  buildParams base true params

/-- The CLI resource table (`Resources` in the crud package). -/
def Resources : List (String × List String) :=
  [("artifacts", ["artifact"]), ("dataitems", ["dataitem"]),
   ("functions", ["function", "fn"]), ("models", ["model"]), ("projects", ["project"]),
   ("runs", ["run"]), ("workflows", ["workflow"]), ("logs", ["log"])]

/-- Go `utils.TranslateEndpoint`: canonical plural endpoint for a resource
name.  For an unsupported resource the source exits the process; that
branch is unreachable from `Upload`, which only translates "run". -/
def TranslateEndpoint (resource : String) : String :=
  match Resources.find? (fun p => p.1 == resource || p.2.contains resource) with
  | some p => p.1
  | none => ""

/-! ## Upload orchestrator (`TransferService.Upload`) -/

/-- The ambient process-global viper state the CLI layer maintains
(utils/viper.go); `Upload` reads `run_id` from it
(`viper.GetString(utils.RunId)`). -/
structure Globals where
  runId : String
  dhcoreEndpoint : String
  dhcoreAccessToken : String
  s3Bucket : String
deriving Repr, DecidableEq

structure FileInfo where
  name : String
  size : Int
  modTime : String
  isDir : Bool
deriving Repr, DecidableEq

/-- An externally visible call: an HTTP request to the Core API (with its
JSON payload, if any) or an object-store put. -/
inductive Ev where
  | http (method : String) (url : String) (body : Option JValue)
  | s3put (bucket : String) (key : String)
deriving Repr, DecidableEq

/-- A network or object-store mutation (as opposed to a read). -/
def isMutation : Ev → Bool
  | Ev.http m _ _ => m == "PUT" || m == "POST"
  | Ev.s3put _ _ => true

/-- Injected collaborator behaviour: the Core HTTP client (`Do`, keyed by
the full request, with the response already JSON-decoded), the local file
system (`os.Stat`, `os.Open`, content-type sniffing, `filepath.Walk`
enumeration of regular files), the object store put, and the UUID
generator. -/
structure Env where
  httpDo : String → String → Option JValue → Except String JValue
  stat : String → Except String FileInfo
  openOk : String → Except String Unit
  sniff : String → String
  s3put : String → String → Except String Unit
  walk : String → Except String (List String)
  newUUID : String

structure UploadRequest where
  Project : String
  Resource : String
  ID : String
  Name : String
  Input : String
  Verbose : Bool
  Bucket : String
deriving Repr, DecidableEq

structure UploadResult where
  ArtifactID : String
  Files : List JObj
deriving Repr, DecidableEq

/-- `Upload`'s error returns, one constructor per `errors.New`/
`fmt.Errorf` site (`json.Marshal` of a decoded document cannot fail, so
the marshal branches are unreachable and carry no constructor). -/
inductive UploadErr where
  | missingInput
  | projectMandatory
  | runRetrieveFailed (e : String)
  | nameRequired
  | cannotAccessInput (e : String)
  | createFailed (e : String)
  | retrieveFailed (e : String)
  | parseFailed (e : String)
  | missingStatus
  | invalidState (s : String)
  | missingSpec
  | invalidPath (e : String)
  | schemeNotS3
  | updateStatusFailed (e : String)
  | uploadFailed (e : String)
  | partialSuccess (e : String)
deriving Repr, DecidableEq

/-- The `getRunKey` closure: when the global `run_id` is set, fetch the
run and extract its `key` field. -/
def getRunKey (cc : CoreConfig) (env : Env) (g : Globals) (project : String) :
    List Ev × Except String String :=
  if g.runId = "" then ([], Except.ok "")
  else
    let url := BuildURL cc project (TranslateEndpoint "run") g.runId []
    match env.httpDo "GET" url none with
    | Except.error e => ([Ev.http "GET" url none], Except.error e)
    | Except.ok body =>
      match body with
      | JValue.jobj run =>
        (match jlookup run "key" with
         | some (JValue.jstr v) =>
           if v ≠ "" then ([Ev.http "GET" url none], Except.ok v)
           else ([Ev.http "GET" url none], Except.error "run key not found in response")
         | _ => ([Ev.http "GET" url none], Except.error "run key not found in response"))
      | _ => ([Ev.http "GET" url none], Except.error "failed to unmarshal run")

/-- The `addRelationship` closure: ensure `metadata` exists and append the
relation.  The Go assertion `meta["relationships"].([]map[string]interface{})`
always fails on a JSON-decoded document (the decoder yields
`[]interface{}`), so `rels` always starts empty on `Upload`'s only call
path. -/
def addRelationship (artifactMap : JObj) (relType dest : String) : JObj :=
  let meta := match jlookup artifactMap "metadata" with
    | some (JValue.jobj m) => m
    | _ => []
  let rels : List JValue := []
  let rels2 := rels ++ [JValue.jobj [("type", JValue.jstr relType), ("dest", JValue.jstr dest)]]
  jinsert artifactMap "metadata" (JValue.jobj (jinsert meta "relationships" (JValue.jarr rels2)))

/-- `artifact[key].(map[string]interface{})` with the empty map on a
failed assertion (as `updateStatus` then allocates a fresh one). -/
def subObjAt (artifact : JObj) (key : String) : JObj :=
  match jlookup artifact key with
  | some (JValue.jobj o) => o
  | _ => []

/-- The `updateStatus` closure (step 5): merge `updateData` onto the
artifact's `key` sub-document with an empty non-nil `MergeConfig`, store
it back into the artifact, and PUT the whole document.  Returns the
updated artifact (the closure mutates its capture), the PUT event and the
call's result. -/
def updateStatus (cc : CoreConfig) (env : Env) (project endpoint artifactID : String)
    (artifact : JObj) (key : String) (updateData : JObj) :
    JObj × List Ev × Except String Unit :=
  let existing := subObjAt artifact key
  let merged := MergeMaps existing updateData (some [])
  let artifact2 := jinsert artifact key (JValue.jobj merged)
  let putURL := BuildURL cc project endpoint artifactID []
  match env.httpDo "PUT" putURL (some (JValue.jobj artifact2)) with
  | Except.error e =>
    (artifact2, [Ev.http "PUT" putURL (some (JValue.jobj artifact2))],
      Except.error ("failed to update artifact status: " ++ e))
  | Except.ok _ =>
    (artifact2, [Ev.http "PUT" putURL (some (JValue.jobj artifact2))], Except.ok ())

/-- Go `utils.UploadS3File` (the progress/stderr UI is elided; seeks on
the opened file are modelled as succeeding).  On success after a failed
final stat the source returns nil files with a nil error. -/
def UploadS3FileM (env : Env) (bucket key localPath : String) :
    List Ev × Except String (List JObj) :=
  match env.openOk localPath with
  | Except.error e => ([], Except.error ("failed to open local file: " ++ e))
  | Except.ok _ =>
    let contentType := env.sniff localPath
    match env.s3put bucket key with
    | Except.error e => ([Ev.s3put bucket key], Except.error ("upload error: " ++ e))
    | Except.ok _ =>
      match env.stat localPath with
      | Except.error _ => ([Ev.s3put bucket key], Except.ok [])
      | Except.ok info =>
        ([Ev.s3put bucket key],
         Except.ok [[("path", JValue.jstr ""), ("name", JValue.jstr info.name),
                     ("content_type", JValue.jstr contentType),
                     ("last_modified", JValue.jstr info.modTime),
                     ("size", JValue.jnum info.size)]])

/-- `filepath.Rel(root, path)` for the slash paths the walk produces. -/
def filepathRel (root p : String) : Except String String :=
  if strHasPrefix p (root ++ "/") then Except.ok (strTrimPrefix p (root ++ "/"))
  else Except.error "relative path error"

/-- `filepath.Join` of a prefix and a relative segment, slash-normalised. -/
def joinPath (a b : String) : String :=
  if a = "" then b else (strTrimSuffix a "/") ++ "/" ++ b

/-- `filepath.Dir` on an already-clean slash path. -/
def dirOf (p : String) : String :=
  match splitOnCharL '/' p.data with
  | [] => "."
  | [_] => "."
  | segs => String.mk (joinSegs segs.dropLast)

/-- The per-file loop of Go `utils.UploadS3Dir`: stat, relative path, key,
sniff, upload; the first failure aborts the whole directory upload. -/
def uploadDirLoop (env : Env) (bucket pfxPath localRoot : String) :
    List String → List Ev × Except String (List JObj)
  | [] => ([], Except.ok [])
  | path :: rest =>
    match env.stat path with
    | Except.error e => ([], Except.error ("stat error on " ++ path ++ ": " ++ e))
    | Except.ok info =>
      match filepathRel localRoot path with
      | Except.error e => ([], Except.error e)
      | Except.ok relPath =>
        let s3Key := joinPath pfxPath relPath
        match env.openOk path with
        | Except.error e => ([], Except.error ("open file error: " ++ e))
        | Except.ok _ =>
          let contentType := env.sniff path
          match env.s3put bucket s3Key with
          | Except.error e =>
            ([Ev.s3put bucket s3Key], Except.error ("upload error (" ++ path ++ "): " ++ e))
          | Except.ok _ =>
            let dirPath := dirOf relPath
            let normalizedPath :=
              if dirPath ≠ "." then joinPath dirPath info.name else info.name
            let fi : JObj :=
              [("path", JValue.jstr normalizedPath), ("name", JValue.jstr info.name),
               ("content_type", JValue.jstr contentType),
               ("last_modified", JValue.jstr info.modTime), ("size", JValue.jnum info.size)]
            match uploadDirLoop env bucket pfxPath localRoot rest with
            | (tr, Except.ok fis) => (Ev.s3put bucket s3Key :: tr, Except.ok (fi :: fis))
            | (tr, Except.error e) => (Ev.s3put bucket s3Key :: tr, Except.error e)

/-- Go `utils.UploadS3Dir`: enumerate the regular files under the local
root (the injected `walk`), then upload each in enumeration order. -/
def UploadS3DirM (env : Env) (bucket pfxPath localPath : String) :
    List Ev × Except String (List JObj) :=
  match env.walk localPath with
  | Except.error e => ([], Except.error ("failed to enumerate local directory: " ++ e))
  | Except.ok files => uploadDirLoop env bucket pfxPath localPath files

/-- Step 7 of `Upload`: directory or single-file transfer (single-file
target key joins the artifact basename onto a directory-style path). -/
def uploadTransfer (env : Env) (pp : ParsedPath) (input : String) (st : FileInfo) :
    List Ev × Except String (List JObj) :=
  if st.isDir then UploadS3DirM env pp.Host pp.Path input
  else
    let targetKey := if strHasSuffix pp.Path "/" then joinPath pp.Path st.name else pp.Path
    UploadS3FileM env pp.Host targetKey input

/-- Step 1 of `Upload`: when no identifier is given, a name is required;
stat the input, generate the identifier, build the canonical `spec.path`
(bucket defaulting to "datalake") and POST the new document in state
CREATED. -/
def uploadEnsureID (cc : CoreConfig) (env : Env) (endpoint : String) (req : UploadRequest) :
    List Ev × Except UploadErr String :=
  if req.ID ≠ "" then ([], Except.ok req.ID)
  else if req.Name = "" then ([], Except.error UploadErr.nameRequired)
  else
    let bucket := if req.Bucket = "" then "datalake" else req.Bucket
    match env.stat req.Input with
    | Except.error e => ([], Except.error (UploadErr.cannotAccessInput e))
    | Except.ok st =>
      let artifactID := env.newUUID
      let path :=
        if st.isDir then
          "s3://" ++ bucket ++ "/" ++ req.Project ++ "/" ++ req.Resource ++ "/" ++
            artifactID ++ "/"
        else
          "s3://" ++ bucket ++ "/" ++ req.Project ++ "/" ++ req.Resource ++ "/" ++
            artifactID ++ "/" ++ st.name
      let entity : JObj :=
        [("id", JValue.jstr artifactID), ("project", JValue.jstr req.Project),
         ("kind", JValue.jstr req.Resource), ("name", JValue.jstr req.Name),
         ("spec", JValue.jobj [("path", JValue.jstr path)]),
         ("status", JValue.jobj [("state", JValue.jstr "CREATED")])]
      let createURL := BuildURL cc req.Project endpoint "" []
      match env.httpDo "POST" createURL (some (JValue.jobj entity)) with
      | Except.error e =>
        ([Ev.http "POST" createURL (some (JValue.jobj entity))],
         Except.error (UploadErr.createFailed e))
      | Except.ok _ =>
        ([Ev.http "POST" createURL (some (JValue.jobj entity))], Except.ok artifactID)

/-- `status["state"].(string)` with Go's zero value on failure. -/
def stateOf (status : JObj) : String :=
  match jlookup status "state" with
  | some (JValue.jstr s) => s
  | _ => ""

/-- Step 4 of `Upload` as `uploadWithArtifact` below reaches it: the PUT
trace of the best-effort ERROR transition (its outcome is discarded by
the caller). -/
def uploadSetError (cc : CoreConfig) (env : Env) (project endpoint artifactID : String)
    (artifact2 : JObj) : List Ev :=
  (updateStatus cc env project endpoint artifactID artifact2 "status"
    [("state", JValue.jstr "ERROR")]).2.1

/-- Step 8 of `Upload`: on a transfer error, best-effort ERROR transition
and the wrapped transfer error; on success, the final READY + files
update, whose failure still returns the collected result alongside the
"upload succeeded but failed to update status" error. -/
def uploadFinalize (artifactID : String) (files : List JObj) (tr4 : List Ev) :
    JObj × List Ev × Except String Unit → List Ev × Option UploadResult × Option UploadErr
  | (_, evs2, Except.error e) =>
    (tr4 ++ evs2, some { ArtifactID := artifactID, Files := files },
      some (UploadErr.partialSuccess e))
  | (_, evs2, Except.ok _) =>
    (tr4 ++ evs2, some { ArtifactID := artifactID, Files := files }, none)

def uploadFinish (cc : CoreConfig) (env : Env) (project endpoint artifactID : String)
    (artifact2 : JObj) (tr3 : List Ev) :
    List Ev × Except String (List JObj) → List Ev × Option UploadResult × Option UploadErr
  | (trUp, Except.error e) =>
    (tr3 ++ trUp ++ uploadSetError cc env project endpoint artifactID artifact2, none,
      some (UploadErr.uploadFailed e))
  | (trUp, Except.ok files) =>
    uploadFinalize artifactID files (tr3 ++ trUp)
      (updateStatus cc env project endpoint artifactID artifact2 "status"
        [("state", JValue.jstr "READY"), ("files", JValue.jarr (files.map JValue.jobj))])

/-- Step 7 of `Upload`: stat the input (an error here also forces the
ERROR transition) and run the transfer. -/
def uploadDoTransfer (cc : CoreConfig) (env : Env) (project endpoint artifactID input : String)
    (pp : ParsedPath) (artifact2 : JObj) (tr3 : List Ev) :
    Except String FileInfo → List Ev × Option UploadResult × Option UploadErr
  | Except.error e =>
    (tr3 ++ uploadSetError cc env project endpoint artifactID artifact2, none,
      some (UploadErr.cannotAccessInput e))
  | Except.ok st =>
    uploadFinish cc env project endpoint artifactID artifact2 tr3
      (uploadTransfer env pp input st)

/-- Step 6 of `Upload`: outcome of the UPLOADING transition. -/
def uploadStartTransfer (cc : CoreConfig) (env : Env) (project endpoint artifactID input : String)
    (pp : ParsedPath) (tr : List Ev) :
    JObj × List Ev × Except String Unit → List Ev × Option UploadResult × Option UploadErr
  | (_, evs, Except.error e) => (tr ++ evs, none, some (UploadErr.updateStatusFailed e))
  | (artifact2, evs, Except.ok _) =>
    uploadDoTransfer cc env project endpoint artifactID input pp artifact2 (tr ++ evs)
      (env.stat input)

/-- Steps 4–6 of `Upload`: scheme precondition, lineage annotation when a
run key is present, then the UPLOADING transition. -/
def uploadCheckPath (cc : CoreConfig) (env : Env) (endpoint : String) (req : UploadRequest)
    (artifactID runKey : String) (artifact : JObj) (tr : List Ev) :
    Except String ParsedPath → List Ev × Option UploadResult × Option UploadErr
  | Except.error e => (tr, none, some (UploadErr.invalidPath e))
  | Except.ok pp =>
    if pp.Scheme ≠ "s3" then (tr, none, some UploadErr.schemeNotS3)
    else
      uploadStartTransfer cc env req.Project endpoint artifactID req.Input pp tr
        (updateStatus cc env req.Project endpoint artifactID
          (if runKey ≠ "" then addRelationship artifact "produced_by" runKey else artifact)
          "status" [("state", JValue.jstr "UPLOADING")])

/-- `spec["path"].(string)` with Go's zero value on failure. -/
def specPathOf (specMap : JObj) : String :=
  match jlookup specMap "path" with
  | some (JValue.jstr s) => s
  | _ => ""

/-- Step 4 of `Upload`: the spec map must exist; its path is parsed. -/
def uploadCheckSpec (cc : CoreConfig) (env : Env) (endpoint : String) (req : UploadRequest)
    (artifactID runKey : String) (artifact : JObj) (tr : List Ev) :
    Option JValue → List Ev × Option UploadResult × Option UploadErr
  | some (JValue.jobj specMap) =>
    uploadCheckPath cc env endpoint req artifactID runKey artifact tr
      (ParsePath (specPathOf specMap))
  | _ => (tr, none, some UploadErr.missingSpec)

/-- Step 3 of `Upload`: the status map must exist and its state must be
CREATED. -/
def uploadCheckState (cc : CoreConfig) (env : Env) (endpoint : String) (req : UploadRequest)
    (artifactID runKey : String) (artifact : JObj) (tr : List Ev) :
    Option JValue → List Ev × Option UploadResult × Option UploadErr
  | some (JValue.jobj status) =>
    if stateOf status ≠ "CREATED" then
      (tr, none, some (UploadErr.invalidState (stateOf status)))
    else
      uploadCheckSpec cc env endpoint req artifactID runKey artifact tr
        (jlookup artifact "spec")
  | _ => (tr, none, some UploadErr.missingStatus)

/-- Steps 3–8 of `Upload`, once the artifact document is in hand. -/
def uploadWithArtifact (cc : CoreConfig) (env : Env) (endpoint : String) (req : UploadRequest)
    (artifactID runKey : String) (artifact : JObj) (tr : List Ev) :
    List Ev × Option UploadResult × Option UploadErr :=
  uploadCheckState cc env endpoint req artifactID runKey artifact tr
    (jlookup artifact "status")

/-- Step 2 of `Upload`: parse the fetched document. -/
def uploadParse (cc : CoreConfig) (env : Env) (endpoint : String) (req : UploadRequest)
    (artifactID runKey : String) (tr : List Ev) :
    Except String JValue → List Ev × Option UploadResult × Option UploadErr
  | Except.error e => (tr, none, some (UploadErr.retrieveFailed e))
  | Except.ok (JValue.jobj artifact) =>
    uploadWithArtifact cc env endpoint req artifactID runKey artifact tr
  | Except.ok _ => (tr, none, some (UploadErr.parseFailed "failed to parse response"))

/-- Step 2 of `Upload`: fetch the artifact document. -/
def uploadFetch (cc : CoreConfig) (env : Env) (endpoint : String) (req : UploadRequest)
    (artifactID runKey : String) (tr : List Ev) :
    List Ev × Option UploadResult × Option UploadErr :=
  uploadParse cc env endpoint req artifactID runKey
    (tr ++ [Ev.http "GET" (BuildURL cc req.Project endpoint artifactID []) none])
    (env.httpDo "GET" (BuildURL cc req.Project endpoint artifactID []) none)

/-- Outcome of step 1 (`uploadEnsureID`). -/
def uploadAfterRun (cc : CoreConfig) (env : Env) (endpoint : String) (req : UploadRequest)
    (runKey : String) (tr0 : List Ev) :
    List Ev × Except UploadErr String → List Ev × Option UploadResult × Option UploadErr
  | (tr1, Except.error err) => (tr0 ++ tr1, none, some err)
  | (tr1, Except.ok artifactID) =>
    uploadFetch cc env endpoint req artifactID runKey (tr0 ++ tr1)

/-- Outcome of the run-key lookup. -/
def uploadAfterRunKey (cc : CoreConfig) (env : Env) (endpoint : String) (req : UploadRequest) :
    List Ev × Except String String → List Ev × Option UploadResult × Option UploadErr
  | (tr0, Except.error e) => (tr0, none, some (UploadErr.runRetrieveFailed e))
  | (tr0, Except.ok runKey) =>
    uploadAfterRun cc env endpoint req runKey tr0 (uploadEnsureID cc env endpoint req)

/-- Go `TransferService.Upload`: input checks, run-key lookup (from the
process-global run id), artifact resolution or creation, fetch, then the
state machine of `uploadWithArtifact`.  Returns the call trace, the Go
`*UploadResult` and the Go `error`. -/
def Upload (cc : CoreConfig) (env : Env) (g : Globals) (endpoint : String)
    (req : UploadRequest) : List Ev × Option UploadResult × Option UploadErr :=
  if req.Input = "" then ([], none, some UploadErr.missingInput)
  else if endpoint ≠ "projects" ∧ req.Project = "" then
    ([], none, some UploadErr.projectMandatory)
  else uploadAfterRunKey cc env endpoint req (getRunKey cc env g req.Project)

/-! ## Upload lemmas -/

/-- Merging a single string-valued entry is a plain insert: the keyed-array
and nested-map branches of the merge do not apply to strings. -/
theorem MergeMaps_single_str (X : JObj) (k s : String) (cfg : MergeCfg) :
    MergeMaps X [(k, JValue.jstr s)] cfg = jinsert X k (JValue.jstr s) := by
  rw [MergeMaps_cons, MergeMaps_nil]
  rfl

/-- The run-key lookup emits no event, or exactly one GET of the run. -/
theorem getRunKey_trace (cc : CoreConfig) (env : Env) (g : Globals) (project : String) :
    (getRunKey cc env g project).1 = [] ∨
    (getRunKey cc env g project).1 =
      [Ev.http "GET" (BuildURL cc project (TranslateEndpoint "run") g.runId []) none] := by
  simp only [getRunKey]
  repeat' split
  all_goals first | exact Or.inl rfl | exact Or.inr rfl

/-- No event of the run-key lookup is a mutation. -/
theorem getRunKey_no_mutation (cc : CoreConfig) (env : Env) (g : Globals) (project : String) :
    ∀ e ∈ (getRunKey cc env g project).1, isMutation e = false := by
  intro e he
  rcases getRunKey_trace cc env g project with h | h <;> rw [h] at he
  · simp at he
  · simp at he
    subst he
    rfl

/-- With an explicit identifier, step 1 issues no call. -/
theorem uploadEnsureID_id (cc : CoreConfig) (env : Env) (endpoint : String)
    (req : UploadRequest) (hid : req.ID ≠ "") :
    uploadEnsureID cc env endpoint req = ([], Except.ok req.ID) := by
  simp only [uploadEnsureID]
  rw [if_pos hid]

/-- `updateStatus` always issues exactly one PUT, whose payload is the
updated artifact it returns. -/
theorem updateStatus_trace (cc : CoreConfig) (env : Env) (project endpoint artifactID : String)
    (artifact : JObj) (key : String) (updateData : JObj) :
    (updateStatus cc env project endpoint artifactID artifact key updateData).2.1 =
      [Ev.http "PUT" (BuildURL cc project endpoint artifactID [])
        (some (JValue.jobj
          (updateStatus cc env project endpoint artifactID artifact key updateData).1))] := by
  simp only [updateStatus]
  split <;> rfl

/-- The artifact `updateStatus` returns: the merged sub-document stored
back at `key`. -/
theorem updateStatus_fst (cc : CoreConfig) (env : Env) (project endpoint artifactID : String)
    (artifact : JObj) (key : String) (updateData : JObj) :
    (updateStatus cc env project endpoint artifactID artifact key updateData).1 =
      jinsert artifact key
        (JValue.jobj (MergeMaps (subObjAt artifact key) updateData (some []))) := by
  simp only [updateStatus]
  split <;> rfl

/-- Reduction of `Upload` to `uploadWithArtifact` for a request with an
explicit identifier, once the run key and the artifact fetch succeed. -/
theorem Upload_reduces (cc : CoreConfig) (env : Env) (g : Globals) (endpoint : String)
    (req : UploadRequest) (runKey : String) (artifact : JObj)
    (hin : req.Input ≠ "") (hproj : req.Project ≠ "") (hid : req.ID ≠ "")
    (hrun : (getRunKey cc env g req.Project).2 = Except.ok runKey)
    (hget : env.httpDo "GET" (BuildURL cc req.Project endpoint req.ID []) none =
      Except.ok (JValue.jobj artifact)) :
    Upload cc env g endpoint req =
      uploadWithArtifact cc env endpoint req req.ID runKey artifact
        ((getRunKey cc env g req.Project).1 ++ [] ++
          [Ev.http "GET" (BuildURL cc req.Project endpoint req.ID []) none]) := by
  have hE : getRunKey cc env g req.Project =
      ((getRunKey cc env g req.Project).1, Except.ok runKey) := by
    rw [← hrun]
  rw [Upload, if_neg hin, if_neg (fun h => hproj h.2), hE]
  simp only [uploadAfterRunKey]
  rw [uploadEnsureID_id cc env endpoint req hid]
  simp only [uploadAfterRun, uploadFetch]
  rw [hget]
  simp only [uploadParse]

/-- C1: an upload against an existing artifact whose fetched status.state
is not CREATED returns the invalid-state error with no result, and its
whole call trace - the run-key lookup and the artifact fetch - contains
no network or object-store mutation. -/
theorem C1_invalid_state_aborts (cc : CoreConfig) (env : Env) (g : Globals)
    (endpoint : String) (req : UploadRequest) (artifact status : JObj) (runKey : String)
    (hin : req.Input ≠ "") (hproj : req.Project ≠ "") (hid : req.ID ≠ "")
    (hrun : (getRunKey cc env g req.Project).2 = Except.ok runKey)
    (hget : env.httpDo "GET" (BuildURL cc req.Project endpoint req.ID []) none =
      Except.ok (JValue.jobj artifact))
    (hstatus : jlookup artifact "status" = some (JValue.jobj status))
    (hstate : stateOf status ≠ "CREATED") :
    (Upload cc env g endpoint req).2 =
      (none, some (UploadErr.invalidState (stateOf status))) ∧
    ∀ e ∈ (Upload cc env g endpoint req).1, isMutation e = false := by
  rw [Upload_reduces cc env g endpoint req runKey artifact hin hproj hid hrun hget]
  simp only [uploadWithArtifact]
  rw [hstatus]
  simp only [uploadCheckState]
  rw [if_pos hstate]
  refine ⟨rfl, ?_⟩
  intro e he
  simp only [List.append_nil, List.mem_append, List.mem_singleton] at he
  rcases he with he | he
  · exact getRunKey_no_mutation cc env g req.Project e he
  · subst he
    rfl

def c1artifact : JObj :=
  [("id", JValue.jstr "art1"),
   ("status", JValue.jobj [("state", JValue.jstr "READY")])]

def c1env : Env :=
  { httpDo := fun m url _ =>
      if m = "GET" ∧ url = "http://core/api/v1/-/proj/artifacts/art1" then
        Except.ok (JValue.jobj c1artifact)
      else Except.error "unexpected call"
    stat := fun _ => Except.error "no filesystem"
    openOk := fun _ => Except.error "no filesystem"
    sniff := fun _ => ""
    s3put := fun _ _ => Except.error "no object store"
    walk := fun _ => Except.error "no filesystem"
    newUUID := "uuid-1" }

def c1cc : CoreConfig :=
  { BaseURL := "http://core"
    APIVersion := "v1"
    AccessToken := ""
    BasicAuthUsername := ""
    BasicAuthPassword := "" }

def c1req : UploadRequest :=
  { Project := "proj"
    Resource := "artifacts"
    ID := "art1"
    Name := ""
    Input := "in.txt"
    Verbose := false
    Bucket := "" }

theorem C1_invalid_state_aborts_witness :
    (Upload c1cc c1env ⟨"", "", "", ""⟩ "artifacts" c1req).2 =
      (none, some (UploadErr.invalidState "READY")) ∧
    ∀ e ∈ (Upload c1cc c1env ⟨"", "", "", ""⟩ "artifacts" c1req).1, isMutation e = false := by
  have h := C1_invalid_state_aborts c1cc c1env ⟨"", "", "", ""⟩ "artifacts" c1req
    c1artifact [("state", JValue.jstr "READY")] ""
    (by decide) (by decide) (by decide) (by decide) (by decide) (by decide) (by decide)
  exact ⟨by rw [h.1]; rfl, h.2⟩

/-- Reduction of `uploadWithArtifact` through the CREATED-state and
s3-path preconditions, to the UPLOADING transition. -/
theorem uploadWithArtifact_created (cc : CoreConfig) (env : Env) (endpoint : String)
    (req : UploadRequest) (artifactID runKey : String) (artifact status specMap : JObj)
    (pathStr : String) (pp : ParsedPath) (tr : List Ev)
    (hstatus : jlookup artifact "status" = some (JValue.jobj status))
    (hstate : stateOf status = "CREATED")
    (hspec : jlookup artifact "spec" = some (JValue.jobj specMap))
    (hpathstr : jlookup specMap "path" = some (JValue.jstr pathStr))
    (hpp : ParsePath pathStr = Except.ok pp)
    (hscheme : pp.Scheme = "s3") :
    uploadWithArtifact cc env endpoint req artifactID runKey artifact tr =
      uploadStartTransfer cc env req.Project endpoint artifactID req.Input pp tr
        (updateStatus cc env req.Project endpoint artifactID
          (if runKey ≠ "" then addRelationship artifact "produced_by" runKey else artifact)
          "status" [("state", JValue.jstr "UPLOADING")]) := by
  have hsp : specPathOf specMap = pathStr := by
    simp only [specPathOf, hpathstr]
  simp only [uploadWithArtifact]
  rw [hstatus]
  simp only [uploadCheckState]
  rw [if_neg (fun hc => hc hstate), hspec]
  simp only [uploadCheckSpec]
  rw [hsp, hpp]
  simp only [uploadCheckPath]
  rw [if_neg (fun hc => hc hscheme)]

/-- C3: when the transfer itself fails (after a successful UPLOADING
transition), Upload returns the wrapped transfer error and no result, and
its trace contains a best-effort PUT of the artifact with status.state
merged to ERROR - with no assumption on that PUT's own outcome. -/
theorem C3_transfer_error_best_effort (cc : CoreConfig) (env : Env) (g : Globals)
    (endpoint : String) (req : UploadRequest) (artifact status specMap artifact1 : JObj)
    (pathStr runKey : String) (pp : ParsedPath) (st : FileInfo) (trUp : List Ev) (e : String)
    (hin : req.Input ≠ "") (hproj : req.Project ≠ "") (hid : req.ID ≠ "")
    (hrun : (getRunKey cc env g req.Project).2 = Except.ok runKey)
    (hget : env.httpDo "GET" (BuildURL cc req.Project endpoint req.ID []) none =
      Except.ok (JValue.jobj artifact))
    (hstatus : jlookup artifact "status" = some (JValue.jobj status))
    (hstate : stateOf status = "CREATED")
    (hspec : jlookup artifact "spec" = some (JValue.jobj specMap))
    (hpathstr : jlookup specMap "path" = some (JValue.jstr pathStr))
    (hpp : ParsePath pathStr = Except.ok pp)
    (hscheme : pp.Scheme = "s3")
    (hart1 : artifact1 =
      if runKey ≠ "" then addRelationship artifact "produced_by" runKey else artifact)
    (hup : (updateStatus cc env req.Project endpoint req.ID artifact1 "status"
        [("state", JValue.jstr "UPLOADING")]).2.2 = Except.ok ())
    (hstat : env.stat req.Input = Except.ok st)
    (htr : uploadTransfer env pp req.Input st = (trUp, Except.error e)) :
    (Upload cc env g endpoint req).2.2 = some (UploadErr.uploadFailed e) ∧
    (Upload cc env g endpoint req).2.1 = none ∧
    ∃ b, Ev.http "PUT" (BuildURL cc req.Project endpoint req.ID [])
        (some (JValue.jobj b)) ∈ (Upload cc env g endpoint req).1 ∧
      ∃ s2, jlookup b "status" = some (JValue.jobj s2) ∧ stateOf s2 = "ERROR" := by
  have hU : updateStatus cc env req.Project endpoint req.ID artifact1 "status"
      [("state", JValue.jstr "UPLOADING")] =
      ((updateStatus cc env req.Project endpoint req.ID artifact1 "status"
          [("state", JValue.jstr "UPLOADING")]).1,
        (updateStatus cc env req.Project endpoint req.ID artifact1 "status"
          [("state", JValue.jstr "UPLOADING")]).2.1, Except.ok ()) := by
    rw [← hup]
  rw [Upload_reduces cc env g endpoint req runKey artifact hin hproj hid hrun hget,
    uploadWithArtifact_created cc env endpoint req req.ID runKey artifact status specMap
      pathStr pp _ hstatus hstate hspec hpathstr hpp hscheme]
  rw [← hart1, hU]
  simp only [uploadStartTransfer]
  rw [hstat]
  simp only [uploadDoTransfer]
  rw [htr]
  simp only [uploadFinish]
  refine ⟨by trivial, by trivial, ?_⟩
  refine ⟨(updateStatus cc env req.Project endpoint req.ID
      (updateStatus cc env req.Project endpoint req.ID artifact1 "status"
        [("state", JValue.jstr "UPLOADING")]).1 "status"
      [("state", JValue.jstr "ERROR")]).1, ?_, ?_⟩
  · simp only [uploadSetError, updateStatus_trace, List.mem_append, List.mem_singleton]
    exact Or.inr trivial
  · rw [updateStatus_fst, jlookup_jinsert_self]
    refine ⟨_, rfl, ?_⟩
    simp only [stateOf]
    rw [MergeMaps_single_str, jlookup_jinsert_self]

def c3artifact : JObj :=
  [("id", JValue.jstr "art1"),
   ("status", JValue.jobj [("state", JValue.jstr "CREATED")]),
   ("spec", JValue.jobj [("path", JValue.jstr "s3://bkt/proj/artifacts/art1/f.txt")])]

def c3cc : CoreConfig :=
  { BaseURL := "http://core"
    APIVersion := "v1"
    AccessToken := ""
    BasicAuthUsername := ""
    BasicAuthPassword := "" }

def c3env : Env :=
  { httpDo := fun m url body =>
      if m = "GET" ∧ url = "http://core/api/v1/-/proj/artifacts/art1" then
        Except.ok (JValue.jobj c3artifact)
      else if m = "PUT" then
        match body with
        | some (JValue.jobj b) =>
          if stateOf (subObjAt b "status") = "UPLOADING" then Except.ok JValue.jnull
          else Except.error "core unavailable"
        | _ => Except.error "unexpected call"
      else Except.error "unexpected call"
    stat := fun _ =>
      Except.ok { name := "f.txt", size := 5, modTime := "2025-01-01", isDir := false }
    openOk := fun _ => Except.ok ()
    sniff := fun _ => "text/plain"
    s3put := fun _ _ => Except.error "connection reset"
    walk := fun _ => Except.error "no walk"
    newUUID := "uuid-3" }

def c3req : UploadRequest :=
  { Project := "proj"
    Resource := "artifacts"
    ID := "art1"
    Name := ""
    Input := "in.txt"
    Verbose := false
    Bucket := "" }

theorem C3_transfer_error_best_effort_witness :
    (Upload c3cc c3env ⟨"", "", "", ""⟩ "artifacts" c3req).2.2 =
      some (UploadErr.uploadFailed "upload error: connection reset") ∧
    (Upload c3cc c3env ⟨"", "", "", ""⟩ "artifacts" c3req).2.1 = none ∧
    ∃ b, Ev.http "PUT" (BuildURL c3cc c3req.Project "artifacts" c3req.ID [])
        (some (JValue.jobj b)) ∈ (Upload c3cc c3env ⟨"", "", "", ""⟩ "artifacts" c3req).1 ∧
      ∃ s2, jlookup b "status" = some (JValue.jobj s2) ∧ stateOf s2 = "ERROR" :=
  C3_transfer_error_best_effort c3cc c3env ⟨"", "", "", ""⟩ "artifacts" c3req
    c3artifact [("state", JValue.jstr "CREATED")]
    [("path", JValue.jstr "s3://bkt/proj/artifacts/art1/f.txt")] c3artifact
    "s3://bkt/proj/artifacts/art1/f.txt" ""
    { Scheme := "s3", Host := "bkt", Path := "/proj/artifacts/art1/f.txt", Filename := "f.txt" }
    { name := "f.txt", size := 5, modTime := "2025-01-01", isDir := false }
    [Ev.s3put "bkt" "/proj/artifacts/art1/f.txt"] "upload error: connection reset"
    (by decide) (by decide) (by decide) (by decide) (by decide) (by decide) (by decide)
    (by decide) (by decide) (by decide) (by decide) (by decide) (by decide) (by decide)
    (by decide)

/-- C2: when the transfer succeeds but the final READY + files update
fails, Upload returns the collected file descriptors together with the
partial-success error, and in particular never a transfer error. -/
theorem C2_partial_success_distinct (cc : CoreConfig) (env : Env) (g : Globals)
    (endpoint : String) (req : UploadRequest) (artifact status specMap artifact1 artifact2 : JObj)
    (pathStr runKey efin : String) (pp : ParsedPath) (st : FileInfo) (trUp : List Ev)
    (files : List JObj)
    (hin : req.Input ≠ "") (hproj : req.Project ≠ "") (hid : req.ID ≠ "")
    (hrun : (getRunKey cc env g req.Project).2 = Except.ok runKey)
    (hget : env.httpDo "GET" (BuildURL cc req.Project endpoint req.ID []) none =
      Except.ok (JValue.jobj artifact))
    (hstatus : jlookup artifact "status" = some (JValue.jobj status))
    (hstate : stateOf status = "CREATED")
    (hspec : jlookup artifact "spec" = some (JValue.jobj specMap))
    (hpathstr : jlookup specMap "path" = some (JValue.jstr pathStr))
    (hpp : ParsePath pathStr = Except.ok pp)
    (hscheme : pp.Scheme = "s3")
    (hart1 : artifact1 =
      if runKey ≠ "" then addRelationship artifact "produced_by" runKey else artifact)
    (hup : (updateStatus cc env req.Project endpoint req.ID artifact1 "status"
        [("state", JValue.jstr "UPLOADING")]).2.2 = Except.ok ())
    (hstat : env.stat req.Input = Except.ok st)
    (htr : uploadTransfer env pp req.Input st = (trUp, Except.ok files))
    (hart2 : artifact2 = (updateStatus cc env req.Project endpoint req.ID artifact1 "status"
        [("state", JValue.jstr "UPLOADING")]).1)
    (hfin : (updateStatus cc env req.Project endpoint req.ID artifact2 "status"
        [("state", JValue.jstr "READY"), ("files", JValue.jarr (files.map JValue.jobj))]).2.2 =
      Except.error efin) :
    (Upload cc env g endpoint req).2.1 = some { ArtifactID := req.ID, Files := files } ∧
    (Upload cc env g endpoint req).2.2 = some (UploadErr.partialSuccess efin) ∧
    ∀ e', (Upload cc env g endpoint req).2.2 ≠ some (UploadErr.uploadFailed e') := by
  have hU : updateStatus cc env req.Project endpoint req.ID artifact1 "status"
      [("state", JValue.jstr "UPLOADING")] =
      ((updateStatus cc env req.Project endpoint req.ID artifact1 "status"
          [("state", JValue.jstr "UPLOADING")]).1,
        (updateStatus cc env req.Project endpoint req.ID artifact1 "status"
          [("state", JValue.jstr "UPLOADING")]).2.1, Except.ok ()) := by
    rw [← hup]
  have hU2 : updateStatus cc env req.Project endpoint req.ID artifact2 "status"
      [("state", JValue.jstr "READY"), ("files", JValue.jarr (files.map JValue.jobj))] =
      ((updateStatus cc env req.Project endpoint req.ID artifact2 "status"
          [("state", JValue.jstr "READY"),
           ("files", JValue.jarr (files.map JValue.jobj))]).1,
        (updateStatus cc env req.Project endpoint req.ID artifact2 "status"
          [("state", JValue.jstr "READY"),
           ("files", JValue.jarr (files.map JValue.jobj))]).2.1, Except.error efin) := by
    rw [← hfin]
  rw [Upload_reduces cc env g endpoint req runKey artifact hin hproj hid hrun hget,
    uploadWithArtifact_created cc env endpoint req req.ID runKey artifact status specMap
      pathStr pp _ hstatus hstate hspec hpathstr hpp hscheme]
  rw [← hart1, hU]
  simp only [uploadStartTransfer]
  rw [hstat]
  simp only [uploadDoTransfer]
  rw [htr]
  simp only [uploadFinish]
  rw [← hart2, hU2]
  simp only [uploadFinalize]
  refine ⟨by trivial, by trivial, ?_⟩
  intro e' h
  simp at h

def c2artifact : JObj :=
  [("id", JValue.jstr "art2"),
   ("status", JValue.jobj [("state", JValue.jstr "CREATED")]),
   ("spec", JValue.jobj [("path", JValue.jstr "s3://bkt/proj/artifacts/art2/f.txt")])]

def c2cc : CoreConfig :=
  { BaseURL := "http://core"
    APIVersion := "v1"
    AccessToken := ""
    BasicAuthUsername := ""
    BasicAuthPassword := "" }

def c2env : Env :=
  { httpDo := fun m url body =>
      if m = "GET" ∧ url = "http://core/api/v1/-/proj/artifacts/art2" then
        Except.ok (JValue.jobj c2artifact)
      else if m = "PUT" then
        match body with
        | some (JValue.jobj b) =>
          if stateOf (subObjAt b "status") = "UPLOADING" then Except.ok JValue.jnull
          else Except.error "core down"
        | _ => Except.error "unexpected call"
      else Except.error "unexpected call"
    stat := fun _ =>
      Except.ok { name := "f.txt", size := 5, modTime := "2025-01-01", isDir := false }
    openOk := fun _ => Except.ok ()
    sniff := fun _ => "text/plain"
    s3put := fun _ _ => Except.ok ()
    walk := fun _ => Except.error "no walk"
    newUUID := "uuid-2" }

def c2req : UploadRequest :=
  { Project := "proj"
    Resource := "artifacts"
    ID := "art2"
    Name := ""
    Input := "in.txt"
    Verbose := false
    Bucket := "" }

def c2files : List JObj :=
  [[("path", JValue.jstr ""), ("name", JValue.jstr "f.txt"),
    ("content_type", JValue.jstr "text/plain"),
    ("last_modified", JValue.jstr "2025-01-01"), ("size", JValue.jnum 5)]]

theorem C2_partial_success_distinct_witness :
    (Upload c2cc c2env ⟨"", "", "", ""⟩ "artifacts" c2req).2.1 =
      some { ArtifactID := c2req.ID, Files := c2files } ∧
    (Upload c2cc c2env ⟨"", "", "", ""⟩ "artifacts" c2req).2.2 =
      some (UploadErr.partialSuccess "failed to update artifact status: core down") ∧
    ∀ e', (Upload c2cc c2env ⟨"", "", "", ""⟩ "artifacts" c2req).2.2 ≠
      some (UploadErr.uploadFailed e') :=
  C2_partial_success_distinct c2cc c2env ⟨"", "", "", ""⟩ "artifacts" c2req
    c2artifact [("state", JValue.jstr "CREATED")]
    [("path", JValue.jstr "s3://bkt/proj/artifacts/art2/f.txt")] c2artifact
    (jinsert c2artifact "status" (JValue.jobj [("state", JValue.jstr "UPLOADING")]))
    "s3://bkt/proj/artifacts/art2/f.txt" "" "failed to update artifact status: core down"
    { Scheme := "s3", Host := "bkt", Path := "/proj/artifacts/art2/f.txt", Filename := "f.txt" }
    { name := "f.txt", size := 5, modTime := "2025-01-01", isDir := false }
    [Ev.s3put "bkt" "/proj/artifacts/art2/f.txt"] c2files
    (by decide) (by decide) (by decide) (by decide) (by decide) (by decide) (by decide)
    (by decide) (by decide) (by decide) (by decide) (by decide) (by decide) (by decide)
    (by decide) (by decide) (by decide)

/-- The run-key lookup depends on the globals only through the run id. -/
theorem getRunKey_run_id_eq (cc : CoreConfig) (env : Env) (g1 g2 : Globals) (project : String)
    (h : g1.runId = g2.runId) :
    getRunKey cc env g1 project = getRunKey cc env g2 project := by
  simp only [getRunKey]
  rw [h]

def c10cc : CoreConfig :=
  { BaseURL := "http://core"
    APIVersion := "v1"
    AccessToken := ""
    BasicAuthUsername := ""
    BasicAuthPassword := "" }

def c10env : Env :=
  { httpDo := fun _ _ _ => Except.error "x"
    stat := fun _ => Except.error "x"
    openOk := fun _ => Except.error "x"
    sniff := fun _ => ""
    s3put := fun _ _ => Except.error "x"
    walk := fun _ => Except.error "x"
    newUUID := "uuid-10" }

def c10req : UploadRequest :=
  { Project := "proj"
    Resource := "artifacts"
    ID := "art1"
    Name := ""
    Input := "in.txt"
    Verbose := false
    Bucket := "" }

/-- C10 counterexample: two Upload calls with identical explicit
arguments and identical collaborator behaviour, differing only in the
process-global run id, behave differently - the run id set in the globals
makes Upload issue a run lookup and fail on it, while the empty run id
makes it fail on the artifact fetch instead. -/
theorem C10_counterexample_ambient_run_id :
    (Upload c10cc c10env ⟨"", "e", "t", "b"⟩ "artifacts" c10req).2.2 =
      some (UploadErr.retrieveFailed "x") ∧
    (Upload c10cc c10env ⟨"r1", "e", "t", "b"⟩ "artifacts" c10req).2.2 =
      some (UploadErr.runRetrieveFailed "x") ∧
    Upload c10cc c10env ⟨"", "e", "t", "b"⟩ "artifacts" c10req ≠
      Upload c10cc c10env ⟨"r1", "e", "t", "b"⟩ "artifacts" c10req := by
  refine ⟨rfl, rfl, ?_⟩
  decide

/-- C10 (amended): Upload reads exactly one piece of ambient process
state - the viper run id. Two calls with identical explicit arguments,
identical collaborator behaviour and the same global run id behave
identically whatever the rest of the process-global configuration
holds. -/
theorem C10_upload_global_state_run_id_only (cc : CoreConfig) (env : Env) (g1 g2 : Globals)
    (endpoint : String) (req : UploadRequest) (h : g1.runId = g2.runId) :
    Upload cc env g1 endpoint req = Upload cc env g2 endpoint req := by
  simp only [Upload]
  rw [getRunKey_run_id_eq cc env g1 g2 req.Project h]

theorem C10_upload_global_state_run_id_only_witness :
    Upload c10cc c10env ⟨"r1", "a", "b", "c"⟩ "artifacts" c10req =
      Upload c10cc c10env ⟨"r1", "x", "y", "z"⟩ "artifacts" c10req :=
  C10_upload_global_state_run_id_only c10cc c10env ⟨"r1", "a", "b", "c"⟩
    ⟨"r1", "x", "y", "z"⟩ "artifacts" c10req (by decide)

/-! ## Download (`TransferService.Download`, download.go)

The local filesystem is threaded explicitly: files are a path-to-size
map (later writes shadow earlier ones, as on disk), directories a set of
paths.  `os.Stat` is `fsStat`; `os.MkdirAll` and the file creation of a
successful transfer are `fsAddDir`/`fsAddFile`.  The S3 downloader
(`utils.DownloadS3FileOrDir`), its paginated walk, the list operation
used for reporting, and the HTTP downloader are injected; a failed
transfer is modelled as leaving the filesystem unchanged (the source may
leave a partial file, which it never reports, so no claim depends on
it).  Progress output goes to stderr only and is elided. -/

structure DownloadRequest where
  Project : String
  Resource : String
  ID : String
  Name : String
  Destination : String
  Verbose : Bool
deriving Repr, DecidableEq

structure DownloadInfo where
  Filename : String
  Size : Int
  Path : String
deriving Repr, DecidableEq

structure FS where
  files : List (String × Int)
  dirs : List String
deriving Repr, DecidableEq

/-- `os.Stat`: some (isDir, size), or none when the path does not exist. -/
def fsStat (fs : FS) (p : String) : Option (Bool × Int) :=
  match fs.files.find? (fun q => q.1 == p) with
  | some q => some (false, q.2)
  | none => if fs.dirs.contains p then some (true, 0) else none

def fsAddFile (fs : FS) (p : String) (sz : Int) : FS :=
  { fs with files := (p, sz) :: fs.files }

def fsAddDir (fs : FS) (p : String) : FS :=
  { fs with dirs := p :: fs.dirs }

/-- The path names an existing regular file (of some size). -/
def fsIsFile (fs : FS) (p : String) : Prop :=
  ∃ sz, fsStat fs p = some (false, sz)

/-- `filepath.Base` on an already-clean relative slash path. -/
def baseOf (p : String) : String :=
  match lastNonEmpty (splitOnCharL '/' p.data) with
  | [] => "."
  | s => String.mk s

/-- Go `cleanLocalPath` (downloader.go) on an already-clean relative
slash path: strip the deepest segment, the empty string for a bare name. -/
def cleanLocalPath (path : String) : String :=
  match splitOnCharL '/' path.data with
  | [] => ""
  | [_] => ""
  | parts => String.mk (joinSegs parts.dropLast)

/-- Go `dirBaseForLocalTarget` (download.go) on an already-clean relative
slash path. -/
def dirBaseForLocalTarget (localPath : String) : String :=
  if dirOf localPath = "." ∨ dirOf localPath = "/" then "" else dirOf localPath

/-- Go `chooseLocalTarget` (download.go): empty destination means the
remote basename in the working directory; an existing directory hosts the
basename; an existing file is the target itself; a missing destination is
created as a directory (`os.MkdirAll`, modelled as always succeeding) and
hosts the basename. -/
def chooseLocalTarget (fs : FS) (dst filename : String) :
    FS × Except String (String × Bool) :=
  if dst = "" then (fs, Except.ok (filename, false))
  else
    match fsStat fs dst with
    | some (true, _) => (fs, Except.ok (joinPath dst filename, false))
    | some (false, _) => (fs, Except.ok (dst, false))
    | none => (fsAddDir fs dst, Except.ok (joinPath dst filename, true))

/-- Injected collaborator behaviour for Download: the Core HTTP client,
the object-store single get (returning the byte size written locally on
success), `ListFilesAll`, the keys the paginated walk delivers (in
order), and the HTTP file downloader. -/
structure DlEnv where
  httpDo : String → String → Except String JValue
  s3get : String → String → Except String Int
  s3listAll : String → String → Except String (List S3File)
  walkKeys : String → String → Except String (List String)
  httpGetFile : String → Except String Int

/-- The per-object body of the directory branch of
`utils.DownloadS3FileOrDir`: create the local directory, download the
object to `localBase` plus the key relative to the prefix; the first
failure aborts the walk. -/
def dirWalkLoop (env : DlEnv) (bucket pathPfx localBase : String) :
    FS → List String → FS × Except String Unit
  | fs, [] => (fs, Except.ok ())
  | fs, key :: rest =>
    match env.s3get bucket key with
    | Except.error e =>
      (fsAddDir fs (dirOf (joinPath localBase (strTrimPrefix key pathPfx))),
        Except.error ("failed to download file: " ++ e))
    | Except.ok sz =>
      dirWalkLoop env bucket pathPfx localBase
        (fsAddFile (fsAddDir fs (dirOf (joinPath localBase (strTrimPrefix key pathPfx))))
          (joinPath localBase (strTrimPrefix key pathPfx)) sz) rest

/-- Go `utils.DownloadS3FileOrDir`: trailing slash selects the directory
walk (rooted at `cleanLocalPath` of the local target), otherwise a single
object download to the local target.  The totals listing is progress-only
and elided. -/
def DownloadS3FileOrDirM (env : DlEnv) (fs : FS) (pp : ParsedPath) (localPath : String) :
    FS × Except String Unit :=
  if strHasSuffix (strTrimPrefix pp.Path "/") "/" then
    match env.walkKeys pp.Host (strTrimPrefix pp.Path "/") with
    | Except.error e => (fs, Except.error ("list error: " ++ e))
    | Except.ok keys =>
      dirWalkLoop env pp.Host (strTrimPrefix pp.Path "/") (cleanLocalPath localPath) fs keys
  else
    match env.s3get pp.Host (strTrimPrefix pp.Path "/") with
    | Except.error e => (fs, Except.error ("S3 download failed: " ++ e))
    | Except.ok sz => (fsAddFile fs localPath sz, Except.ok ())

/-- Go `extractPaths` (download.go): no `content` key means a single
object whose non-empty `spec.path` is the one path; otherwise `content`
must be an array, and every element's non-empty string `spec.path` is
collected, at least one being required. -/
def extractPaths (body : JValue) : Except String (List String) :=
  match body with
  | JValue.jobj raw =>
    match jlookup raw "content" with
    | none =>
      (match jlookup raw "spec" with
       | some (JValue.jobj spec) =>
         (match jlookup spec "path" with
          | some (JValue.jstr p) =>
            if p ≠ "" then Except.ok [p] else Except.error "missing spec.path"
          | _ => Except.error "missing spec.path")
       | _ => Except.error "missing spec.path")
    | some (JValue.jarr content) =>
      (match content.filterMap (fun it =>
          match it with
          | JValue.jobj m =>
            (match jlookup m "spec" with
             | some (JValue.jobj spec) =>
               (match jlookup spec "path" with
                | some (JValue.jstr p) => if p ≠ "" then some p else none
                | _ => none)
             | _ => none)
          | _ => none) with
       | [] => Except.error "no paths in content"
       | paths => Except.ok paths)
    | some _ => Except.error "invalid content"
  | _ => Except.error "invalid json"

/-- One entry of the directory-download report: stat the local
counterpart of a listed object and keep it only when it is an existing
regular file. -/
def dirReportEntry (fs2 : FS) (base key : String) (f : S3File) : Option DownloadInfo :=
  match fsStat fs2 (joinPath base (strTrimPrefix f.Path key)) with
  | some (false, sz) =>
    some { Filename := baseOf (joinPath base (strTrimPrefix f.Path key)), Size := sz,
           Path := joinPath base (strTrimPrefix f.Path key) }
  | _ => none

/-- Directory case after `DownloadS3FileOrDir` returns: on success, list
the prefix for reporting (a listing failure skips reporting) and stat
each local file. -/
def downloadStepDirDone (env : DlEnv) (fs2 : FS) (pp : ParsedPath) (target : String) :
    Except String Unit → FS × List DownloadInfo
  | Except.error _ => (fs2, [])
  | Except.ok _ =>
    match env.s3listAll pp.Host (strTrimPrefix pp.Path "/") with
    | Except.error _ => (fs2, [])
    | Except.ok files =>
      (fs2, files.filterMap (dirReportEntry fs2 (dirBaseForLocalTarget target)
        (strTrimPrefix pp.Path "/")))

/-- Single-object case after `DownloadS3FileOrDir` returns: on success,
report the target iff a post-hoc stat finds a regular file. -/
def downloadStepFileDone (fs2 : FS) (target : String) :
    Except String Unit → FS × List DownloadInfo
  | Except.error _ => (fs2, [])
  | Except.ok _ =>
    match fsStat fs2 target with
    | some (false, sz) => (fs2, [{ Filename := baseOf target, Size := sz, Path := target }])
    | _ => (fs2, [])

/-- The http/https case: download, then the same post-hoc stat. -/
def downloadStepHttp (fs1 : FS) (target : String) :
    Except String Int → FS × List DownloadInfo
  | Except.error _ => (fs1, [])
  | Except.ok sz =>
    match fsStat (fsAddFile fs1 target sz) target with
    | some (false, sz2) =>
      (fsAddFile fs1 target sz, [{ Filename := baseOf target, Size := sz2, Path := target }])
    | _ => (fsAddFile fs1 target sz, [])

/-- Scheme dispatch of one loop iteration; an unsupported scheme skips. -/
def downloadStepTarget (env : DlEnv) (fs1 : FS) (pp : ParsedPath) :
    Except String (String × Bool) → FS × List DownloadInfo
  | Except.error _ => (fs1, [])
  | Except.ok (target, _) =>
    if pp.Scheme = "s3" then
      if strHasSuffix (strTrimPrefix pp.Path "/") "/" then
        downloadStepDirDone env (DownloadS3FileOrDirM env fs1 pp target).1 pp target
          (DownloadS3FileOrDirM env fs1 pp target).2
      else
        downloadStepFileDone (DownloadS3FileOrDirM env fs1 pp target).1 target
          (DownloadS3FileOrDirM env fs1 pp target).2
    else if pp.Scheme = "http" ∨ pp.Scheme = "https" then
      downloadStepHttp fs1 target (env.httpGetFile pp.Path)
    else (fs1, [])

/-- One iteration of Download's per-path loop (its filesystem effect and
the report entries it appends); every failure skips the path. -/
def downloadStep (env : DlEnv) (fs : FS) (dst : String) (p : String) :
    FS × List DownloadInfo :=
  match ParsePath p with
  | Except.error _ => (fs, [])
  | Except.ok pp =>
    downloadStepTarget env (chooseLocalTarget fs dst pp.Filename).1 pp
      (chooseLocalTarget fs dst pp.Filename).2

/-- Download's per-path loop: thread the filesystem, concatenate the
report entries. -/
def downloadLoop (env : DlEnv) (dst : String) : FS → List String → FS × List DownloadInfo
  | fs, [] => (fs, [])
  | fs, p :: rest =>
    ((downloadLoop env dst (downloadStep env fs dst p).1 rest).1,
      (downloadStep env fs dst p).2 ++
        (downloadLoop env dst (downloadStep env fs dst p).1 rest).2)

/-- The fetch URL: name and latest-version parameters exactly when no
identifier is given (the Go map holds those two keys; the query order is
fixed to this list order). -/
def downloadURL (cc : CoreConfig) (endpoint : String) (req : DownloadRequest) : String :=
  if req.ID = "" then
    BuildURL cc req.Project endpoint "" [("name", req.Name), ("versions", "latest")]
  else BuildURL cc req.Project endpoint req.ID []

def downloadAfterPaths (env : DlEnv) (fs : FS) (req : DownloadRequest) :
    Except String (List String) → FS × Except String (List DownloadInfo)
  | Except.error e => (fs, Except.error e)
  | Except.ok paths =>
    ((downloadLoop env req.Destination fs paths).1,
      Except.ok (downloadLoop env req.Destination fs paths).2)

def downloadAfterGet (env : DlEnv) (fs : FS) (req : DownloadRequest) :
    Except String JValue → FS × Except String (List DownloadInfo)
  | Except.error e => (fs, Except.error e)
  | Except.ok body => downloadAfterPaths env fs req (extractPaths body)

/-- Go `TransferService.Download`: argument validation, one GET, path
extraction, then the per-path loop, whose collected report is returned
with a nil error. -/
def Download (cc : CoreConfig) (env : DlEnv) (fs : FS) (endpoint : String)
    (req : DownloadRequest) : FS × Except String (List DownloadInfo) :=
  if req.Resource ≠ "projects" ∧ req.Project = "" then
    (fs, Except.error "project is mandatory for non-project resources")
  else if req.ID = "" ∧ req.Name = "" then
    (fs, Except.error "you must specify id or name")
  else downloadAfterGet env fs req (env.httpDo "GET" (downloadURL cc endpoint req))

/-- Writing a file preserves every existing regular file (possibly
changing its size when overwritten). -/
theorem fsIsFile_addFile (fs : FS) (q : String) (sz : Int) (p : String)
    (h : fsIsFile fs p) : fsIsFile (fsAddFile fs q sz) p := by
  obtain ⟨s0, hs⟩ := h
  by_cases hqp : q = p
  · subst hqp
    refine ⟨sz, ?_⟩
    simp [fsAddFile, fsStat, List.find?]
  · refine ⟨s0, ?_⟩
    have hq : (q == p) = false := by simp [hqp]
    simpa [fsAddFile, fsStat, List.find?, hq] using hs

/-- Creating a directory preserves every existing regular file. -/
theorem fsIsFile_addDir (fs : FS) (q p : String) (h : fsIsFile fs p) :
    fsIsFile (fsAddDir fs q) p := by
  obtain ⟨s0, hs⟩ := h
  refine ⟨s0, ?_⟩
  simp only [fsStat, fsAddDir] at hs ⊢
  cases hf : List.find? (fun r => r.1 == p) fs.files with
  | none =>
    rw [hf] at hs
    by_cases hd : fs.dirs.contains p = true
    · rw [if_pos hd] at hs
      simp at hs
    · rw [if_neg hd] at hs
      cases hs
  | some r =>
    rw [hf] at hs
    exact hs

theorem chooseLocalTarget_mono (fs : FS) (dst filename p : String) (h : fsIsFile fs p) :
    fsIsFile (chooseLocalTarget fs dst filename).1 p := by
  simp only [chooseLocalTarget]
  split
  · exact h
  · split
    · exact h
    · exact h
    · exact fsIsFile_addDir fs dst p h

theorem dirWalkLoop_mono (env : DlEnv) (bucket pathPfx localBase : String) :
    ∀ (keys : List String) (fs : FS) (p : String), fsIsFile fs p →
      fsIsFile (dirWalkLoop env bucket pathPfx localBase fs keys).1 p := by
  intro keys
  induction keys with
  | nil => intro fs p h; exact h
  | cons key rest ih =>
    intro fs p h
    simp only [dirWalkLoop]
    split
    · exact fsIsFile_addDir _ _ _ h
    · exact ih _ _ (fsIsFile_addFile _ _ _ _ (fsIsFile_addDir _ _ _ h))

theorem DownloadS3FileOrDirM_mono (env : DlEnv) (fs : FS) (pp : ParsedPath)
    (localPath p : String) (h : fsIsFile fs p) :
    fsIsFile (DownloadS3FileOrDirM env fs pp localPath).1 p := by
  simp only [DownloadS3FileOrDirM]
  split
  · split
    · exact h
    · exact dirWalkLoop_mono env pp.Host (strTrimPrefix pp.Path "/")
        (cleanLocalPath localPath) _ fs p h
  · split
    · exact h
    · exact fsIsFile_addFile fs localPath _ p h

theorem downloadStepDirDone_fst (env : DlEnv) (fs2 : FS) (pp : ParsedPath) (target : String)
    (r : Except String Unit) : (downloadStepDirDone env fs2 pp target r).1 = fs2 := by
  cases r with
  | error e => rfl
  | ok u =>
    simp only [downloadStepDirDone]
    split <;> rfl

theorem downloadStepFileDone_fst (fs2 : FS) (target : String) (r : Except String Unit) :
    (downloadStepFileDone fs2 target r).1 = fs2 := by
  cases r with
  | error e => rfl
  | ok u =>
    simp only [downloadStepFileDone]
    split <;> rfl

theorem downloadStepHttp_mono (fs1 : FS) (target : String) (r : Except String Int)
    (p : String) (h : fsIsFile fs1 p) : fsIsFile (downloadStepHttp fs1 target r).1 p := by
  cases r with
  | error e => exact h
  | ok sz =>
    simp only [downloadStepHttp]
    split
    · exact fsIsFile_addFile fs1 target sz p h
    · exact fsIsFile_addFile fs1 target sz p h

theorem downloadStepTarget_mono (env : DlEnv) (fs1 : FS) (pp : ParsedPath)
    (r : Except String (String × Bool)) (p : String) (h : fsIsFile fs1 p) :
    fsIsFile (downloadStepTarget env fs1 pp r).1 p := by
  cases r with
  | error e => exact h
  | ok tb =>
    obtain ⟨target, created⟩ := tb
    simp only [downloadStepTarget]
    split
    · split
      · rw [downloadStepDirDone_fst]
        exact DownloadS3FileOrDirM_mono env fs1 pp target p h
      · rw [downloadStepFileDone_fst]
        exact DownloadS3FileOrDirM_mono env fs1 pp target p h
    · split
      · exact downloadStepHttp_mono fs1 target _ p h
      · exact h

theorem downloadStep_mono (env : DlEnv) (fs : FS) (dst p q : String) (h : fsIsFile fs q) :
    fsIsFile (downloadStep env fs dst p).1 q := by
  simp only [downloadStep]
  split
  · exact h
  · exact downloadStepTarget_mono env _ _ _ q (chooseLocalTarget_mono fs dst _ q h)

theorem downloadLoop_mono (env : DlEnv) (dst : String) :
    ∀ (paths : List String) (fs : FS) (q : String), fsIsFile fs q →
      fsIsFile (downloadLoop env dst fs paths).1 q := by
  intro paths
  induction paths with
  | nil => intro fs q h; exact h
  | cons p rest ih =>
    intro fs q h
    simp only [downloadLoop]
    exact ih _ q (downloadStep_mono env fs dst p q h)

theorem dirReportEntry_isFile (fs2 : FS) (base key : String) (f : S3File) (d : DownloadInfo)
    (h : dirReportEntry fs2 base key f = some d) : fsIsFile fs2 d.Path := by
  simp only [dirReportEntry] at h
  split at h
  · rename_i sz heq
    injection h with h1
    subst h1
    exact ⟨sz, heq⟩
  · cases h

theorem downloadStepDirDone_report (env : DlEnv) (fs2 : FS) (pp : ParsedPath)
    (target : String) (r : Except String Unit) :
    ∀ d ∈ (downloadStepDirDone env fs2 pp target r).2,
      fsIsFile (downloadStepDirDone env fs2 pp target r).1 d.Path := by
  intro d hd
  rw [downloadStepDirDone_fst]
  cases r with
  | error e => cases hd
  | ok u =>
    simp only [downloadStepDirDone] at hd
    split at hd
    · cases hd
    · simp only [List.mem_filterMap] at hd
      obtain ⟨f, _, hf⟩ := hd
      exact dirReportEntry_isFile _ _ _ f d hf

theorem downloadStepFileDone_report (fs2 : FS) (target : String) (r : Except String Unit) :
    ∀ d ∈ (downloadStepFileDone fs2 target r).2,
      fsIsFile (downloadStepFileDone fs2 target r).1 d.Path := by
  intro d hd
  rw [downloadStepFileDone_fst]
  cases r with
  | error e => cases hd
  | ok u =>
    simp only [downloadStepFileDone] at hd
    split at hd
    · rename_i sz heq
      simp only [List.mem_singleton] at hd
      subst hd
      exact ⟨sz, heq⟩
    · cases hd

theorem downloadStepHttp_report (fs1 : FS) (target : String) (r : Except String Int) :
    ∀ d ∈ (downloadStepHttp fs1 target r).2,
      fsIsFile (downloadStepHttp fs1 target r).1 d.Path := by
  intro d hd
  cases r with
  | error e => cases hd
  | ok sz =>
    simp only [downloadStepHttp] at hd ⊢
    cases heq : fsStat (fsAddFile fs1 target sz) target with
    | none =>
      rw [heq] at hd
      simp at hd
    | some pr =>
      obtain ⟨isd, sz2⟩ := pr
      rw [heq] at hd
      cases isd with
      | false =>
        simp at hd
        subst hd
        exact ⟨sz2, heq⟩
      | true => simp at hd

theorem downloadStepTarget_report (env : DlEnv) (fs1 : FS) (pp : ParsedPath)
    (r : Except String (String × Bool)) :
    ∀ d ∈ (downloadStepTarget env fs1 pp r).2,
      fsIsFile (downloadStepTarget env fs1 pp r).1 d.Path := by
  intro d hd
  cases r with
  | error e => cases hd
  | ok tb =>
    obtain ⟨target, created⟩ := tb
    simp only [downloadStepTarget] at hd ⊢
    split at hd
    · rename_i hs3
      rw [if_pos hs3]
      split at hd
      · rename_i hsuf
        rw [if_pos hsuf]
        exact downloadStepDirDone_report env _ pp target _ d hd
      · rename_i hsuf
        rw [if_neg hsuf]
        exact downloadStepFileDone_report _ target _ d hd
    · rename_i hs3
      rw [if_neg hs3]
      split at hd
      · rename_i hh
        rw [if_pos hh]
        exact downloadStepHttp_report fs1 target _ d hd
      · rename_i hh
        rw [if_neg hh]
        cases hd

theorem downloadStep_report (env : DlEnv) (fs : FS) (dst p : String) :
    ∀ d ∈ (downloadStep env fs dst p).2, fsIsFile (downloadStep env fs dst p).1 d.Path := by
  intro d hd
  simp only [downloadStep] at hd ⊢
  split at hd
  · cases hd
  · rename_i pp heq
    exact downloadStepTarget_report env _ pp _ d hd

theorem downloadLoop_report (env : DlEnv) (dst : String) :
    ∀ (paths : List String) (fs : FS) (d : DownloadInfo),
      d ∈ (downloadLoop env dst fs paths).2 →
      fsIsFile (downloadLoop env dst fs paths).1 d.Path := by
  intro paths
  induction paths with
  | nil => intro fs d hd; cases hd
  | cons p rest ih =>
    intro fs d hd
    simp only [downloadLoop, List.mem_append] at hd ⊢
    rcases hd with hd | hd
    · exact downloadLoop_mono env dst rest _ d.Path (downloadStep_report env fs dst p d hd)
    · exact ih _ d hd

def c4cc : CoreConfig :=
  { BaseURL := "http://core"
    APIVersion := "v1"
    AccessToken := ""
    BasicAuthUsername := ""
    BasicAuthPassword := "" }

def c4body : JValue :=
  JValue.jobj [("content", JValue.jarr
    [JValue.jobj [("spec", JValue.jobj [("path", JValue.jstr "s3://bkt/a/f1.txt")])],
     JValue.jobj [("spec", JValue.jobj [("path", JValue.jstr "s3://bkt/a/f2.txt")])]])]

def c4env : DlEnv :=
  { httpDo := fun m url =>
      if m = "GET" ∧ url = "http://core/api/v1/-/proj/artifacts/art1" then Except.ok c4body
      else Except.error "unexpected call"
    s3get := fun _ key => if key = "a/f1.txt" then Except.ok 5 else Except.error "get failed"
    s3listAll := fun _ _ => Except.error "no list"
    walkKeys := fun _ _ => Except.error "no walk"
    httpGetFile := fun _ => Except.error "no http" }

def c4fs0 : FS := { files := [], dirs := [] }

def c4req : DownloadRequest :=
  { Project := "proj"
    Resource := "artifacts"
    ID := "art1"
    Name := ""
    Destination := ""
    Verbose := false }

/-- C4: once the fetch and path extraction succeed, the per-path loop of
Download never fails the batch - the call returns the collected report
with a nil error - and every reported descriptor names a path that a
post-hoc stat confirms as an existing regular file in the final local
filesystem; in particular, in the concrete two-path batch where the
object-store get of the second path fails, the report holds exactly the
one entry of the first path and no error is raised. -/
theorem C4_download_partial_failure (cc : CoreConfig) (env : DlEnv) (fs0 : FS)
    (endpoint : String) (req : DownloadRequest) (body : JValue) (paths : List String)
    (hproj : ¬(req.Resource ≠ "projects" ∧ req.Project = ""))
    (hid : ¬(req.ID = "" ∧ req.Name = ""))
    (hget : env.httpDo "GET" (downloadURL cc endpoint req) = Except.ok body)
    (hpaths : extractPaths body = Except.ok paths) :
    ((Download cc env fs0 endpoint req).2 =
        Except.ok (downloadLoop env req.Destination fs0 paths).2 ∧
      ∀ d ∈ (downloadLoop env req.Destination fs0 paths).2,
        fsIsFile (Download cc env fs0 endpoint req).1 d.Path) ∧
    (Download c4cc c4env c4fs0 "artifacts" c4req).2 =
      Except.ok [{ Filename := "f1.txt", Size := 5, Path := "f1.txt" }] := by
  have hD : Download cc env fs0 endpoint req =
      ((downloadLoop env req.Destination fs0 paths).1,
        Except.ok (downloadLoop env req.Destination fs0 paths).2) := by
    rw [Download, if_neg hproj, if_neg hid, hget]
    simp only [downloadAfterGet]
    rw [hpaths]
    simp only [downloadAfterPaths]
  refine ⟨⟨?_, ?_⟩, ?_⟩
  · rw [hD]
  · intro d hd
    rw [hD]
    exact downloadLoop_report env req.Destination paths fs0 d hd
  · decide

theorem C4_download_partial_failure_witness :
    ((Download c4cc c4env c4fs0 "artifacts" c4req).2 =
        Except.ok (downloadLoop c4env c4req.Destination c4fs0
          ["s3://bkt/a/f1.txt", "s3://bkt/a/f2.txt"]).2 ∧
      ∀ d ∈ (downloadLoop c4env c4req.Destination c4fs0
          ["s3://bkt/a/f1.txt", "s3://bkt/a/f2.txt"]).2,
        fsIsFile (Download c4cc c4env c4fs0 "artifacts" c4req).1 d.Path) ∧
    (Download c4cc c4env c4fs0 "artifacts" c4req).2 =
      Except.ok [{ Filename := "f1.txt", Size := 5, Path := "f1.txt" }] :=
  C4_download_partial_failure c4cc c4env c4fs0 "artifacts" c4req c4body
    ["s3://bkt/a/f1.txt", "s3://bkt/a/f2.txt"]
    (by decide) (by decide) (by decide) (by decide)

end DhCli
